import Mathlib

/-!
# PATCH service of go-scim: a shallow embedding of `service/patch.go`

The Go file implements the SCIM PATCH orchestration (`patchService.Do`), the
payload validation (`PatchPayload.Validate`) and the value parsing of a single
operation (`PatchOperation.ParseValue`, `PatchOperation.getTargetAttribute`).

Conventions of the embedding:

* a Go function that can raise a run-time panic returns a `Completion`;
* a Go `error` is an `Option Error` (`none` is the nil error);
* a possibly nil pointer is an `Option`;
* the packages `spec`, `prop`, `crud`, `expr`, `db`, `filter` and `json` are not
  part of the embedded file: their functions are fields of `Library`, `DB` and `patchService`,
  state transformers over an abstract world `W` that owns every resource
  (`R` is the type of resource pointers);
* every collaborator invocation made by `Do` is recorded as an `Event`.
-/

namespace PatchService

/-! ## Errors -/

/-- Modelled from the spec: the error taxonomy of the `spec` package (section 7),
whose sentinel values `spec.ErrInternal`, `spec.ErrInvalidSyntax`,
`spec.ErrInvalidPath`, `spec.ErrConflict` are wrapped by `patch.go`. -/
inductive ErrKind
  | Unsupported
  | InvalidSyntax
  | InvalidPath
  | InvalidValue
  | NotFound
  | Conflict
  | Internal
  deriving DecidableEq, Repr

/-- A Go error value. `kind` is the sentinel it wraps (`fmt.Errorf("%w: ...", sentinel)`),
or `none` for an error of a foreign package such as `encoding/json`. -/
structure Error where
  kind : Option ErrKind
  msg : String
  deriving DecidableEq, Repr

/-- Result of running a Go function: it returns, or it panics. -/
inductive Completion (α : Type)
  | returned (a : α)
  | panicked (msg : String)
  deriving DecidableEq, Repr

/-! ## Payload (patch.go lines 37-45) -/

/-- The type `json.RawMessage`: a byte slice. -/
abbrev RawMessage := List Nat

/-- The struct `PatchOperation`. -/
structure PatchOperation where
  Op : String
  Path : String
  Value : RawMessage
  deriving DecidableEq, Repr

/-- The struct `PatchPayload`. -/
structure PatchPayload where
  Schemas : List String
  Operations : List PatchOperation
  deriving DecidableEq, Repr

/-- The schema identifier compared in `Validate` (line 179). -/
def patchOpURN : String := "urn:ietf:params:scim:api:messages:2.0:PatchOp"

/-! ## PatchPayload.Validate (patch.go lines 178-205) -/

/-- The condition of line 179, `len(p.Schemas) != 1 && p.Schemas[0] != urn`, with
Go's short-circuit evaluation: the index expression is evaluated only when the
length differs from one, and panics on an empty slice. -/
def schemaCheckFails (p : PatchPayload) : Completion Bool :=
  if p.Schemas.length ≠ 1 then
    match p.Schemas with
    | [] => .panicked "index out of range [0] with length 0"
    | s :: _ => .returned (decide (s ≠ patchOpURN))
  else
    .returned false

/-- The body of the loop of lines 183-202 for one operation: the error it returns,
or `none` when the loop goes on. -/
def validateOperation (each : PatchOperation) : Option Error :=
  if each.Op = "add" then
    if each.Value.length = 0 then
      some ⟨some .InvalidSyntax, "no value for add operation"⟩
    else none
  else if each.Op = "replace" then
    if each.Value.length = 0 then
      some ⟨some .InvalidSyntax, "no value for replace operation"⟩
    else none
  else if each.Op = "remove" then
    if each.Path.utf8ByteSize = 0 then
      some ⟨some .InvalidSyntax, "no path for remove operation"⟩
    else if each.Value.length > 0 then
      some ⟨some .InvalidSyntax, "value is unnecessary for remove operation"⟩
    else none
  else
    some ⟨some .InvalidSyntax, "invalid patch operation"⟩

/-- The loop of lines 183-204: the first error found in payload order, else nil. -/
def validateOperations : List PatchOperation → Option Error
  | [] => none
  | each :: rest =>
    match validateOperation each with
    | some e => some e
    | none => validateOperations rest

/-- The method `PatchPayload.Validate`. -/
def Validate (p : PatchPayload) : Completion (Option Error) :=
  match schemaCheckFails p with
  | .panicked m => .panicked m
  | .returned true => .returned (some ⟨some .InvalidSyntax, "invalid patch operation schema"⟩)
  | .returned false => .returned (validateOperations p.Operations)

/-! ## Compiled paths and attribute resolution (patch.go lines 237-251) -/

/-- Modelled from the spec: the kind of a token of a compiled path (package `expr`,
absent): a named path segment or the root of a filter predicate. -/
inductive TokenKind
  | pathSegment
  | filterRoot
  deriving DecidableEq, Repr

/-- Modelled from the spec: one node of the linked list `*expr.Expression`, without
its `next` pointer. A chain is a `List ExprNode`: the nil pointer is the empty
list and `Next()` is the tail. -/
structure ExprNode where
  kind : TokenKind
  token : String
  deriving DecidableEq, Repr

/-- The method `Expression.IsPath`. -/
def ExprNode.IsPath (e : ExprNode) : Bool := decide (e.kind = .pathSegment)

/-- The method `Expression.IsRootOfFilter`. -/
def ExprNode.IsRootOfFilter (e : ExprNode) : Bool := decide (e.kind = .filterRoot)

/-- The method `Expression.Token`. -/
def ExprNode.Token (e : ExprNode) : String := e.token

/-- The method `PatchOperation.getTargetAttribute`. `SubAttributeForName` is the
method of `spec.Attribute` (absent), taken as a parameter; a nil attribute is
`none`. The receiver `o` is not used by the Go body. -/
def getTargetAttribute {A : Type} (SubAttributeForName : A → String → Option A) :
    Option A → List ExprNode → Option A
  | parentAttr, [] => parentAttr
  | none, _ :: _ => none
  | some parentAttr, cursor :: next =>
    if cursor.IsRootOfFilter then
      getTargetAttribute SubAttributeForName (some parentAttr) next
    else
      getTargetAttribute SubAttributeForName (SubAttributeForName parentAttr cursor.Token) next

/-! ## Collaborators, requests, responses and events -/

/-- An `io.Reader`, represented by what `ioutil.ReadAll` yields when draining it. -/
abbrev Reader := Except Error (List Nat)

/-- The struct `PatchRequest`. The match criteria is a Go closure: it may read and
change the world. -/
structure PatchRequest (W R : Type) where
  ResourceID : String
  MatchCriteria : Option (W → R → Bool × W)
  PayloadSource : Option Reader

/-- The struct `PatchResponse`. -/
structure PatchResponse (R : Type) where
  Patched : Bool
  Resource : R
  OldVersion : String
  deriving DecidableEq, Repr

/-- The two fields of `spec.ServiceProviderConfig` read by the service:
`Patch.Supported` and `ETag.Supported`. -/
structure ServiceProviderConfig where
  PatchSupported : Bool
  ETagSupported : Bool
  deriving DecidableEq, Repr

/-- The two methods of the interface `db.DB` called by the service. `Get` returns
a resource pointer or an error; `Replace` takes the pre-image and the new resource. -/
structure DB (W R : Type) where
  Get : W → String → Except Error R × W
  Replace : W → R → R → Option Error × W

/-- The method `FilterRef(ctx, resource, ref)` of a `filter.ByResource`. -/
abbrev ByResource (W R : Type) := W → R → R → Option Error × W

/-- The struct `patchService`. -/
structure patchService (W R : Type) where
  preFilters : List (ByResource W R)
  postFilters : List (ByResource W R)
  database : DB W R
  config : ServiceProviderConfig

/-- The functions and methods of the packages `json`, `expr`, `spec`, `prop`,
`scimjson` and `crud` called by `patch.go`. `A` is `spec.Attribute`, `P` is
`prop.Property`, `V` is the raw value (`interface{}`) handed to the mutators. -/
structure Library (W R A P V : Type) where
  Unmarshal : List Nat → Except Error PatchPayload
  CompilePath : String → Except Error (ExprNode × List ExprNode)
  SubAttributeForName : A → String → Option A
  ResourceTypeID : W → R → String
  RootAttribute : W → R → Option A
  MetaVersionOrEmpty : W → R → String
  Clone : W → R → R × W
  NewProperty : A → P
  DeserializeProperty : RawMessage → P → Bool → Option Error × P
  Raw : P → V
  Add : W → R → String → V → Option Error × W
  Replace : W → R → String → V → Option Error × W
  Delete : W → R → String → Option Error × W

/-- One collaborator invocation of `Do`, recorded when it returns, with the error
it returned where it can fail. `ParseValue` marks the return of the method
`PatchOperation.ParseValue`; `FilterRef` carries the phase (`post`) and the
position of the filter in its list. -/
inductive Event (R V : Type)
  | Get (id : String) (err : Option Error)
  | MatchCriteria (resource : R) (result : Bool)
  | Clone (resource ref : R)
  | FilterRef (post : Bool) (index : Nat) (resource ref : R) (err : Option Error)
  | DeserializeProperty (value : RawMessage) (isAdd : Bool) (err : Option Error)
  | ParseValue (op : PatchOperation) (resource : R) (err : Option Error)
  | Add (resource : R) (path : String) (value : V) (err : Option Error)
  | Replace (resource : R) (path : String) (value : V) (err : Option Error)
  | Delete (resource : R) (path : String) (err : Option Error)
  | DbReplace (ref resource : R) (err : Option Error)
  deriving DecidableEq, Repr

/-- What a call of `Do` leaves behind: the returned pair `(resp, err)` or a panic,
the final world, and the collaborator invocations in order. -/
structure Run (W R V : Type) where
  outcome : Completion (Option (PatchResponse R) × Option Error)
  world : W
  trace : List (Event R V)

/-! ## PatchOperation.ParseValue (patch.go lines 207-235) -/

/-- The error of line 226, `fmt.Errorf("%w: path '%s' is invalid", spec.ErrInvalidPath, o.Path)`. -/
def invalidPathError (path : String) : Error :=
  ⟨some .InvalidPath, "path " ++ String.singleton (Char.ofNat 39) ++ path ++
    String.singleton (Char.ofNat 39) ++ " is invalid"⟩

/-- The block of lines 212-222: the cursor `head` handed to the resolver. It is nil
for an empty path; otherwise the path is compiled and its first node is dropped when
it is a path segment whose token equals the resource type identifier. -/
def compileHead {W R A P V : Type} (lib : Library W R A P V) (w : W) (resource : R)
    (o : PatchOperation) : Except Error (List ExprNode) :=
  if o.Path.utf8ByteSize > 0 then
    match lib.CompilePath o.Path with
    | .error err => .error err
    | .ok (head, next) =>
      if head.IsPath && decide (head.Token = lib.ResourceTypeID w resource) then
        .ok next
      else
        .ok (head :: next)
  else
    .ok []

/-- The method `PatchOperation.ParseValue`: the returned pair `(value, err)` as an
`Except`, and the deserializer invocation it made, if any. -/
def ParseValue {W R A P V : Type} (lib : Library W R A P V) (w : W) (resource : R)
    (o : PatchOperation) : Except Error V × List (Event R V) :=
  match compileHead lib w resource o with
  | .error err => (.error err, [])
  | .ok head =>
    match getTargetAttribute lib.SubAttributeForName (lib.RootAttribute w resource) head with
    | none => (.error (invalidPathError o.Path), [])
    | some attr =>
      match lib.DeserializeProperty o.Value (lib.NewProperty attr) (decide (o.Op = "add")) with
      | (some err, _) =>
        (.error err, [.DeserializeProperty o.Value (decide (o.Op = "add")) (some err)])
      | (none, p) =>
        (.ok (lib.Raw p), [.DeserializeProperty o.Value (decide (o.Op = "add")) none])

/-! ## patchService.Do and its helpers (patch.go lines 65-176) -/

/-- The method `patchService.checkSupport` (lines 153-158). -/
def checkSupport {W R : Type} (s : patchService W R) : Option Error :=
  if !s.config.PatchSupported then
    some ⟨some .Internal, "patch operation is not supported"⟩
  else none

/-- The method `patchService.parseRequest` (lines 160-176). -/
def parseRequest {W R A P V : Type} (lib : Library W R A P V)
    (req : Option (PatchRequest W R)) : Except Error PatchPayload :=
  match req with
  | none => .error ⟨some .Internal, "no payload for patch service"⟩
  | some req =>
    match req.PayloadSource with
    | none => .error ⟨some .Internal, "no payload for patch service"⟩
    | some source =>
      match source with
      | .error _ => .error ⟨some .Internal, "failed to read request body"⟩
      | .ok raw =>
        match lib.Unmarshal raw with
        | .error err => .error err
        | .ok patch => .ok patch

/-- The precondition block of lines 83-88: the conflict error if any, the world
after the match criteria ran, and the invocation made. -/
def checkPrecondition {W R V : Type} (s : patchService W R) (req : PatchRequest W R)
    (w : W) (resource : R) : Option Error × W × List (Event R V) :=
  match s.config.ETagSupported, req.MatchCriteria with
  | true, some criteria =>
    match criteria w resource with
    | (false, w1) =>
      (some ⟨some .Conflict, "resource does not meet pre condition"⟩, w1,
        [.MatchCriteria resource false])
    | (true, w1) => (none, w1, [.MatchCriteria resource true])
  | _, _ => (none, w, [])

/-- The filter loops of lines 95-99 (`post = false`) and 122-126 (`post = true`):
each filter in list order on `(resource, ref)`, stopping at the first error.
`index` is the position of the head of the list. -/
def runFilters {W R V : Type} (post : Bool) (resource ref : R) :
    Nat → List (ByResource W R) → W → Option Error × W × List (Event R V)
  | _, [], w => (none, w, [])
  | index, f :: rest, w =>
    match f w resource ref with
    | (some err, w1) => (some err, w1, [.FilterRef post index resource ref (some err)])
    | (none, w1) =>
      match runFilters post resource ref (index + 1) rest w1 with
      | (err, w2, evs) => (err, w2, .FilterRef post index resource ref none :: evs)

/-- The body of the loop of lines 101-120 for one operation: the error returned from
`Do`, if any, the world after the mutator, and the invocations made. -/
def applyOperation {W R A P V : Type} (lib : Library W R A P V) (resource : R)
    (patchOp : PatchOperation) (w : W) : Option Error × W × List (Event R V) :=
  if patchOp.Op = "add" then
    match ParseValue lib w resource patchOp with
    | (.error err, evs) => (some err, w, evs ++ [.ParseValue patchOp resource (some err)])
    | (.ok valueToAdd, evs) =>
      match lib.Add w resource patchOp.Path valueToAdd with
      | (err, w1) =>
        (err, w1, evs ++ [.ParseValue patchOp resource none,
          .Add resource patchOp.Path valueToAdd err])
  else if patchOp.Op = "replace" then
    match ParseValue lib w resource patchOp with
    | (.error err, evs) => (some err, w, evs ++ [.ParseValue patchOp resource (some err)])
    | (.ok valueToReplace, evs) =>
      match lib.Replace w resource patchOp.Path valueToReplace with
      | (err, w1) =>
        (err, w1, evs ++ [.ParseValue patchOp resource none,
          .Replace resource patchOp.Path valueToReplace err])
  else if patchOp.Op = "remove" then
    match lib.Delete w resource patchOp.Path with
    | (err, w1) => (err, w1, [.Delete resource patchOp.Path err])
  else
    (none, w, [])

/-- The loop of lines 101-120: the operations in payload order, each on the world
left by the previous one, stopping at the first error. -/
def applyOperations {W R A P V : Type} (lib : Library W R A P V) (resource : R) :
    List PatchOperation → W → Option Error × W × List (Event R V)
  | [], w => (none, w, [])
  | patchOp :: rest, w =>
    match applyOperation lib resource patchOp w with
    | (some err, w1, evs) => (some err, w1, evs)
    | (none, w1, evs) =>
      match applyOperations lib resource rest w1 with
      | (err, w2, evs2) => (err, w2, evs ++ evs2)

/-- Lines 128-150: compare the version tokens and commit through the database.
`trace` is the list of invocations made so far. -/
def diffAndCommit {W R A P V : Type} (lib : Library W R A P V) (s : patchService W R)
    (resource ref : R) (w : W) (trace : List (Event R V)) : Run W R V :=
  let newVersion := lib.MetaVersionOrEmpty w resource
  let oldVersion := lib.MetaVersionOrEmpty w ref
  if newVersion = oldVersion then
    ⟨.returned (some ⟨false, ref, oldVersion⟩, none), w, trace⟩
  else
    match s.database.Replace w ref resource with
    | (some err, w1) =>
      ⟨.returned (none, some err), w1, trace ++ [.DbReplace ref resource (some err)]⟩
    | (none, w1) =>
      ⟨.returned (some ⟨true, resource, oldVersion⟩, none), w1,
        trace ++ [.DbReplace ref resource none]⟩

/-- Lines 122-150: the post-filter loop on the mutated resource, then the diff and
the commit. `trace` is the list of invocations made so far. -/
def postFiltersAndCommit {W R A P V : Type} (lib : Library W R A P V) (s : patchService W R)
    (resource ref : R) (w : W) (trace : List (Event R V)) : Run W R V :=
  match runFilters true resource ref 0 s.postFilters w with
  | (some err, w1, evs) => ⟨.returned (none, some err), w1, trace ++ evs⟩
  | (none, w1, evs) => diffAndCommit lib s resource ref w1 (trace ++ evs)

/-- The method `patchService.Do`, started in world `w`. A nil request is `none`. -/
def Do {W R A P V : Type} (lib : Library W R A P V) (s : patchService W R) (w : W)
    (req : Option (PatchRequest W R)) : Run W R V :=
  match checkSupport s with
  | some err => ⟨.returned (none, some err), w, []⟩
  | none =>
  match parseRequest lib req with
  | .error err => ⟨.returned (none, some err), w, []⟩
  | .ok patch =>
  match Validate patch with
  | .panicked m => ⟨.panicked m, w, []⟩
  | .returned (some err) => ⟨.returned (none, some err), w, []⟩
  | .returned none =>
  match req with
  | none => ⟨.panicked "nil pointer dereference", w, []⟩
  | some req =>
  match s.database.Get w req.ResourceID with
  | (.error err, w1) => ⟨.returned (none, some err), w1, [.Get req.ResourceID (some err)]⟩
  | (.ok resource, w1) =>
  match checkPrecondition s req w1 resource with
  | (some err, w2, evs2) =>
    ⟨.returned (none, some err), w2, .Get req.ResourceID none :: evs2⟩
  | (none, w2, evs2) =>
  match lib.Clone w2 resource with
  | (ref, w3) =>
  match runFilters false resource ref 0 s.preFilters w3 with
  | (some err, w4, evs4) =>
    ⟨.returned (none, some err), w4,
      .Get req.ResourceID none :: evs2 ++ .Clone resource ref :: evs4⟩
  | (none, w4, evs4) =>
  match applyOperations lib resource patch.Operations w4 with
  | (some err, w5, evs5) =>
    ⟨.returned (none, some err), w5,
      .Get req.ResourceID none :: evs2 ++ .Clone resource ref :: evs4 ++ evs5⟩
  | (none, w5, evs5) =>
    postFiltersAndCommit lib s resource ref w5
      (.Get req.ResourceID none :: evs2 ++ .Clone resource ref :: evs4 ++ evs5)

/-! ## A concrete instance: an in-memory store holding one user

The instance follows the test file: a user `foo` with a user name, a time zone and
one e-mail, a post-filter that stamps a new version when the content changed, and a
store whose `Replace` compares versions. -/

/-- Content of a resource of the instance. -/
structure ToyResource where
  userName : String
  timezone : String
  emailType : String
  version : String
  deriving DecidableEq, Repr

/-- The world of the instance: a heap of resources, a pointer being an index.
Index 0 is the copy held by the store. -/
abbrev ToyWorld := List ToyResource

/-- Dereference a pointer. -/
def toyDeref (w : ToyWorld) (r : Nat) : ToyResource := w.getD r ⟨"", "", "", ""⟩

/-- Attributes of the instance schema. -/
inductive ToyAttr
  | root
  | userName
  | timezone
  | emails
  | emailsValue
  | emailsType
  deriving DecidableEq, Repr

/-- Sub-attribute lookup of the instance schema. -/
def toySub : ToyAttr → String → Option ToyAttr
  | .root, name =>
    if name = "userName" then some .userName
    else if name = "timezone" then some .timezone
    else if name = "emails" then some .emails
    else none
  | .emails, name =>
    if name = "value" then some .emailsValue
    else if name = "type" then some .emailsType
    else none
  | _, _ => none

/-- Path compiler of the instance: a table of the paths used below. -/
def toyCompile (path : String) : Except Error (ExprNode × List ExprNode) :=
  if path = "userName" then .ok (⟨.pathSegment, "userName"⟩, [])
  else if path = "timezone" then .ok (⟨.pathSegment, "timezone"⟩, [])
  else if path = "nickName" then .ok (⟨.pathSegment, "nickName"⟩, [])
  else if path = "emails[primary eq true].type" then
    .ok (⟨.pathSegment, "emails"⟩, [⟨.filterRoot, "eq"⟩, ⟨.pathSegment, "type"⟩])
  else if path = "User.userName" then
    .ok (⟨.pathSegment, "User"⟩, [⟨.pathSegment, "userName"⟩])
  else if path = "User" then .ok (⟨.pathSegment, "User"⟩, [])
  else .error ⟨some .InvalidPath, "cannot compile path"⟩

/-- A property of the instance: its attribute and its text. -/
structure ToyProperty where
  attr : ToyAttr
  text : String
  deriving DecidableEq, Repr

/-- Write `text` at `path` in a resource of the instance. -/
def toyWrite (x : ToyResource) (path text : String) : Option ToyResource :=
  if path = "userName" then some { x with userName := text }
  else if path = "timezone" then some { x with timezone := text }
  else if path = "emails[primary eq true].type" then some { x with emailType := text }
  else none

/-- Mutator of the instance: write through the pointer, or fail on an unknown path. -/
def toyMutate (w : ToyWorld) (r : Nat) (path text : String) : Option Error × ToyWorld :=
  match toyWrite (toyDeref w r) path text with
  | some x => (none, w.set r x)
  | none => (some ⟨some .InvalidPath, "no target"⟩, w)

/-- Library of the instance. Payload bytes `[1]` to `[6]` stand for the six
payloads used below (`[6]` is the JSON object without members); a value is the list
of its character codes. -/
def toyLib : Library ToyWorld Nat ToyAttr ToyProperty String where
  Unmarshal := fun raw =>
    if raw = [1] then
      .ok ⟨[patchOpURN], [⟨"add", "userName", [102, 111, 111, 98, 97, 114]⟩,
        ⟨"replace", "emails[primary eq true].type", [119, 111, 114, 107]⟩,
        ⟨"remove", "timezone", []⟩]⟩
    else if raw = [2] then
      .ok ⟨[patchOpURN], [⟨"add", "userName", [102, 111, 111]⟩]⟩
    else if raw = [3] then
      .ok ⟨[patchOpURN], [⟨"add", "userName", [102, 111, 111, 98, 97, 114]⟩,
        ⟨"replace", "nickName", [120]⟩]⟩
    else if raw = [4] then
      .ok ⟨[patchOpURN], [⟨"remove", "timezone", [120]⟩]⟩
    else if raw = [5] then
      .ok ⟨[patchOpURN], [⟨"add", "userName", [102, 111, 111, 98, 97, 114]⟩,
        ⟨"replace", "userName", [98, 97, 114]⟩]⟩
    else if raw = [6] then .ok ⟨[], []⟩
    else .error ⟨none, "unexpected end of JSON input"⟩
  CompilePath := toyCompile
  SubAttributeForName := toySub
  ResourceTypeID := fun _ _ => "User"
  RootAttribute := fun _ _ => some .root
  MetaVersionOrEmpty := fun w r => (toyDeref w r).version
  Clone := fun w r => (w.length, w ++ [toyDeref w r])
  NewProperty := fun attr => ⟨attr, ""⟩
  DeserializeProperty := fun raw p _ =>
    if raw = [0] then (some ⟨some .InvalidValue, "cannot deserialize"⟩, p)
    else (none, { p with text := String.mk (raw.map Char.ofNat) })
  Raw := fun p => p.text
  Add := toyMutate
  Replace := toyMutate
  Delete := fun w r path => toyMutate w r path ""

/-- Post-filter of the instance: stamp a new version when the content differs from
the pre-image. -/
def toyMetaFilter : ByResource ToyWorld Nat := fun w resource ref =>
  let x := toyDeref w resource
  let y := toyDeref w ref
  if x.userName = y.userName ∧ x.timezone = y.timezone ∧ x.emailType = y.emailType then
    (none, w)
  else
    (none, w.set resource { x with version := x.version ++ "+" })

/-- Store of the instance: `Get` hands out a fresh copy of the stored resource,
`Replace` writes the new resource when the stored version is the pre-image version. -/
def toyDB : DB ToyWorld Nat where
  Get := fun w id =>
    if id = "foo" then (.ok w.length, w ++ [toyDeref w 0])
    else (.error ⟨some .NotFound, "resource not found"⟩, w)
  Replace := fun w ref resource =>
    if (toyDeref w 0).version = (toyDeref w ref).version then
      (none, w.set 0 (toyDeref w resource))
    else (some ⟨some .Conflict, "version mismatch"⟩, w)

/-- Service of the instance, with PATCH and ETag support. -/
def toyService : patchService ToyWorld Nat where
  preFilters := []
  postFilters := [toyMetaFilter]
  database := toyDB
  config := ⟨true, true⟩

/-- The stored user of the test file. -/
def toyUser : ToyResource := ⟨"foo", "Asia/Shanghai", "home", "v1"⟩

/-- Initial world of the instance: the store holds the user. -/
def toyWorld : ToyWorld := [toyUser]

/-- Request of the instance carrying payload bytes `raw`, without match criteria. -/
def toyRequest (raw : List Nat) : PatchRequest ToyWorld Nat :=
  ⟨"foo", none, some (.ok raw)⟩

/-- Request of the instance whose match criteria compares the version with `etag`. -/
def toyRequestIfMatch (raw : List Nat) (etag : String) : PatchRequest ToyWorld Nat :=
  ⟨"foo", some (fun w r => (decide ((toyDeref w r).version = etag), w)), some (.ok raw)⟩

/-! ## Specification-side definitions -/

/-- The rules of the specification for one operation: the kind is one of `add`,
`replace`, `remove`; an `add` or `replace` carries a non-empty value; a `remove`
carries a non-empty path and an empty value. -/
def OperationRulesHold (op : PatchOperation) : Prop :=
  (op.Op = "add" ∨ op.Op = "replace" ∨ op.Op = "remove") ∧
  ((op.Op = "add" ∨ op.Op = "replace") → op.Value ≠ []) ∧
  (op.Op = "remove" → op.Path ≠ "" ∧ op.Value = [])

/-- One step of the iterative walk of the specification: a filter root leaves the
current attribute unchanged, any other token replaces it by its sub-attribute of
that name; once no attribute is found the walk stays not-found. -/
def walkStep {A : Type} (sub : A → String → Option A) (current : Option A)
    (t : ExprNode) : Option A :=
  match current with
  | none => none
  | some attr => if t.kind = .filterRoot then some attr else sub attr t.token

/-- The iterative walk of the specification: start at the root and take one step per
token, left to right. -/
def iterativeWalk {A : Type} (sub : A → String → Option A) (root : A)
    (chain : List ExprNode) : Option A :=
  chain.foldl (walkStep sub) (some root)

/-- The collaborator an event is an invocation of. -/
inductive EventKind
  | storageGet
  | matchCriteria
  | clone
  | filter
  | deserialize
  | parseValue
  | mutator
  | storageReplace
  deriving DecidableEq, Repr

/-- Kind of an event. -/
def Event.kind {R V : Type} : Event R V → EventKind
  | .Get _ _ => .storageGet
  | .MatchCriteria _ _ => .matchCriteria
  | .Clone _ _ => .clone
  | .FilterRef _ _ _ _ _ => .filter
  | .DeserializeProperty _ _ _ => .deserialize
  | .ParseValue _ _ _ => .parseValue
  | .Add _ _ _ _ => .mutator
  | .Replace _ _ _ _ => .mutator
  | .Delete _ _ _ => .mutator
  | .DbReplace _ _ _ => .storageReplace

/-- The error an invocation returned, `none` for a success and for the invocations
that cannot fail. -/
def Event.err {R V : Type} : Event R V → Option Error
  | .Get _ e => e
  | .MatchCriteria _ _ => none
  | .Clone _ _ => none
  | .FilterRef _ _ _ _ e => e
  | .DeserializeProperty _ _ e => e
  | .ParseValue _ _ e => e
  | .Add _ _ _ e => e
  | .Replace _ _ _ e => e
  | .Delete _ _ e => e
  | .DbReplace _ _ e => e

/-- Kinds of the invocations made by the operation loop. -/
def EventKind.isOperation : EventKind → Bool
  | .deserialize => true
  | .parseValue => true
  | .mutator => true
  | _ => false

/-- One step of the sequential application of the specification. A run that already
failed stays as it is. Otherwise a `remove` applies `crud.Delete`; an `add` or
`replace` parses its value against the current state and, if that succeeds, applies
`crud.Add` or `crud.Replace` to that state; any other kind applies nothing. -/
def sequentialStep {W R A P V : Type} (lib : Library W R A P V) (resource : R)
    (acc : Option Error × W × List (Event R V)) (op : PatchOperation) :
    Option Error × W × List (Event R V) :=
  match acc with
  | (some err, w, evs) => (some err, w, evs)
  | (none, w, evs) =>
    if op.Op = "remove" then
      ((lib.Delete w resource op.Path).1, (lib.Delete w resource op.Path).2,
        evs ++ [.Delete resource op.Path (lib.Delete w resource op.Path).1])
    else if op.Op = "add" ∨ op.Op = "replace" then
      match (ParseValue lib w resource op).1 with
      | .error err =>
        (some err, w, evs ++ (ParseValue lib w resource op).2 ++
          [.ParseValue op resource (some err)])
      | .ok value =>
        if op.Op = "add" then
          ((lib.Add w resource op.Path value).1, (lib.Add w resource op.Path value).2,
            evs ++ (ParseValue lib w resource op).2 ++ [.ParseValue op resource none,
              .Add resource op.Path value (lib.Add w resource op.Path value).1])
        else
          ((lib.Replace w resource op.Path value).1, (lib.Replace w resource op.Path value).2,
            evs ++ (ParseValue lib w resource op).2 ++ [.ParseValue op resource none,
              .Replace resource op.Path value (lib.Replace w resource op.Path value).1])
    else
      (none, w, evs)

/-- The sequential application of the specification: a left fold of `sequentialStep`
over the operations in payload order. -/
def sequentialFold {W R A P V : Type} (lib : Library W R A P V) (resource : R)
    (ops : List PatchOperation) (w : W) : Option Error × W × List (Event R V) :=
  ops.foldl (sequentialStep lib resource) (none, w, [])

/-- Service of the instance with PATCH support switched off. -/
def toyServiceNoPatch : patchService ToyWorld Nat :=
  { toyService with config := ⟨false, true⟩ }

/-- Service of the instance with ETag support switched off. -/
def toyServiceNoETag : patchService ToyWorld Nat :=
  { toyService with config := ⟨true, false⟩ }

/-- Lines 225-234 of `ParseValue`: what the method does once the resolver has
returned `attr`, the invalid-path error for nil and the deserialization otherwise. -/
def parseAtAttribute {W R A P V : Type} (lib : Library W R A P V) (o : PatchOperation)
    (attr : Option A) : Except Error V × List (Event R V) :=
  match attr with
  | none => (.error (invalidPathError o.Path), [])
  | some attr =>
    match lib.DeserializeProperty o.Value (lib.NewProperty attr) (decide (o.Op = "add")) with
    | (some err, _) =>
      (.error err, [.DeserializeProperty o.Value (decide (o.Op = "add")) (some err)])
    | (none, p) =>
      (.ok (lib.Raw p), [.DeserializeProperty o.Value (decide (o.Op = "add")) none])

/-- A step of the operation loop as the specification counts it: the value parse of
an operation, or the mutator of a kind on a path. -/
inductive OpStep
  | parse (op : PatchOperation)
  | mutate (kind path : String)
  deriving DecidableEq, Repr

/-- The step an event stands for; `none` for the events that are no value parse and
no mutator. -/
def Event.step {R V : Type} : Event R V → Option OpStep
  | .ParseValue op _ _ => some (.parse op)
  | .Add _ path _ _ => some (.mutate "add" path)
  | .Replace _ path _ _ => some (.mutate "replace" path)
  | .Delete _ path _ => some (.mutate "remove" path)
  | _ => none

/-- The steps the specification expects of one operation: a remove is deleted; an add
or a replace has its value parsed and is then handed to the mutator of its kind. -/
def expectedSteps (op : PatchOperation) : List OpStep :=
  if op.Op = "remove" then [.mutate "remove" op.Path]
  else [.parse op, .mutate op.Op op.Path]

/-- The steps the specification expects of an operation list, in payload order. -/
def expectedStepsOf : List PatchOperation → List OpStep
  | [] => []
  | op :: rest => expectedSteps op ++ expectedStepsOf rest

/-- The invocations the specification expects of a filter phase with `n` registered
filters: each filter once, in registration order, on `(resource, ref)`, successful. -/
def filterEvents {R V : Type} (post : Bool) (resource ref : R) (n : Nat) : List (Event R V) :=
  (List.range n).map (fun i => .FilterRef post i resource ref none)

/-- Rank of the phase of `Do` an event belongs to: Get, match criteria, Clone,
pre-filters, operations, post-filters, commit. -/
def Event.phase {R V : Type} : Event R V → Nat
  | .Get _ _ => 0
  | .MatchCriteria _ _ => 1
  | .Clone _ _ => 2
  | .FilterRef false _ _ _ _ => 3
  | .DeserializeProperty _ _ _ => 4
  | .ParseValue _ _ _ => 4
  | .Add _ _ _ _ => 4
  | .Replace _ _ _ _ => 4
  | .Delete _ _ _ => 4
  | .FilterRef true _ _ _ _ => 5
  | .DbReplace _ _ _ => 6

/-- The event is an invocation on the live resource `resource` and, where it takes
a pre-image, on `ref`. -/
def Event.uses {R V : Type} (resource ref : R) : Event R V → Prop
  | .Get _ _ => True
  | .MatchCriteria r _ => r = resource
  | .Clone r c => r = resource ∧ c = ref
  | .FilterRef _ _ r c _ => r = resource ∧ c = ref
  | .DeserializeProperty _ _ _ => True
  | .ParseValue _ r _ => r = resource
  | .Add r _ _ _ => r = resource
  | .Replace r _ _ _ => r = resource
  | .Delete r _ _ => r = resource
  | .DbReplace c r _ => c = ref ∧ r = resource

/-- The content and the version token of the resource `r` in the world `w`. `content`
reads the property tree of a resource (package `prop`, absent), taken as a parameter. -/
def resourceState {W R A P V C : Type} (lib : Library W R A P V) (content : W → R → C)
    (w : W) (r : R) : C × String :=
  (content w r, lib.MetaVersionOrEmpty w r)

/-- Modelled from the spec: the independence of a clone from its original (section 3:
a clone is a structurally independent tree that shares no mutable state with the
original; packages `prop` and `crud` are absent). A mutator applied to the resource
`r` leaves the state of every other resource unchanged. -/
def WritesOnlyTarget {W R A P V α : Type} (lib : Library W R A P V) (state : W → R → α) :
    Prop :=
  ∀ (w : W) (r other : R) (path : String), other ≠ r →
    (∀ v, state (lib.Add w r path v).2 other = state w other) ∧
    (∀ v, state (lib.Replace w r path v).2 other = state w other) ∧
    state (lib.Delete w r path).2 other = state w other

/-- Modelled from the spec: the filter contract (sections 3 and 5: filters receive the
live resource and the pre-image and must treat the pre-image as read-only; package
`filter` is absent). A filter run on the live resource `r` and the pre-image `p`
leaves the state of `p` unchanged. -/
def PreImageReadOnly {W R α : Type} (filters : List (ByResource W R)) (state : W → R → α) :
    Prop :=
  ∀ f ∈ filters, ∀ (w : W) (r p : R), p ≠ r → state (f w r p).2 p = state w p

/-- A pre-filter of the instance that writes into the live resource: it sets the time
zone to `UTC`. -/
def toyNormalizeFilter : ByResource ToyWorld Nat := fun w resource _ =>
  (none, w.set resource { toyDeref w resource with timezone := "UTC" })

/-- Service of the instance with that pre-filter registered. -/
def toyServiceNormalize : patchService ToyWorld Nat :=
  { toyService with preFilters := [toyNormalizeFilter] }

/-- The trace of a successful run, as the specification orders it: the Get, the
match-criteria evaluation if any, the Clone, each pre-filter in registration order,
the invocations of a successful operation loop over the parsed payload, each
post-filter in registration order and, unless the response is not-patched on the
pre-image, one successful storage Replace of the pre-image by the live resource. -/
def SuccessTrace {W R A P V : Type} (lib : Library W R A P V) (s : patchService W R)
    (req : Option (PatchRequest W R)) (resp : PatchResponse R) (trace : List (Event R V)) :
    Prop :=
  ∃ (r : PatchRequest W R) (patch : PatchPayload) (resource ref : R) (w4 w5 : W)
    (evs2 evs5 commit : List (Event R V)),
    req = some r ∧ parseRequest lib req = .ok patch ∧ Validate patch = .returned none ∧
    applyOperations lib resource patch.Operations w4 = (none, w5, evs5) ∧
    (∀ ev ∈ evs2, ev.kind = .matchCriteria) ∧
    ((commit = [] ∧ resp.Patched = false ∧ resp.Resource = ref) ∨
      (commit = [.DbReplace ref resource none] ∧ resp.Patched = true ∧
        resp.Resource = resource)) ∧
    trace =
      (.Get r.ResourceID none :: evs2 ++
        .Clone resource ref :: filterEvents false resource ref s.preFilters.length ++
        evs5 ++ filterEvents true resource ref s.postFilters.length) ++ commit

/-- Whether a step is a mutator invocation. -/
def OpStep.isMutate : OpStep → Bool
  | .mutate _ _ => true
  | .parse _ => false

/-- The resource a value parse or a mutator is applied to; `none` for the other events. -/
def Event.target {R V : Type} : Event R V → Option R
  | .ParseValue _ r _ => some r
  | .Add r _ _ _ => some r
  | .Replace r _ _ _ => some r
  | .Delete r _ _ => some r
  | _ => none

/-! ## Theorems -/

/-- The Go `len` of a string is zero exactly for the empty string. -/
theorem utf8ByteSize_eq_zero_iff (s : String) : s.utf8ByteSize = 0 ↔ s = "" := by
  cases s with
  | mk data =>
    cases data with
    | nil => simp [String.utf8ByteSize, String.utf8ByteSize.go]
    | cons c cs =>
      have hc : 0 < c.utf8Size := Char.utf8Size_pos c
      have hne : (String.mk (c :: cs)) ≠ "" := by
        intro h
        have := congrArg String.data h
        simp at this
      simp only [String.utf8ByteSize, String.utf8ByteSize.go, hne, iff_false]
      omega

/-- One operation passes the loop body of `Validate` exactly when it obeys the rules. -/
theorem validateOperation_eq_none_iff (op : PatchOperation) :
    validateOperation op = none ↔ OperationRulesHold op := by
  unfold validateOperation OperationRulesHold
  have h1 : ("add" : String) ≠ "replace" := by decide
  have h2 : ("add" : String) ≠ "remove" := by decide
  have h3 : ("replace" : String) ≠ "remove" := by decide
  by_cases ha : op.Op = "add"
  · simp [ha, h1, h2]
  · by_cases hr : op.Op = "replace"
    · simp [hr, h1.symm, h3]
    · by_cases hd : op.Op = "remove"
      · by_cases hp : op.Path = ""
        · simp [hd, h2.symm, h3.symm, utf8ByteSize_eq_zero_iff, hp]
        · by_cases hv : op.Value = []
          · simp [hd, h2.symm, h3.symm, utf8ByteSize_eq_zero_iff, hp, hv]
          · have hlen : 0 < op.Value.length := List.length_pos.mpr hv
            simp [hd, h2.symm, h3.symm, utf8ByteSize_eq_zero_iff, hp, hv, hlen]
      · simp [ha, hr, hd]

/-- Every error of the loop body of `Validate` wraps the syntax sentinel. -/
theorem validateOperation_kind (op : PatchOperation) (e : Error)
    (h : validateOperation op = some e) : e.kind = some .InvalidSyntax := by
  unfold validateOperation at h
  split_ifs at h <;> (injection h with h; subst h; rfl)

/-- The loop of `Validate` succeeds exactly when every operation passes its body. -/
theorem validateOperations_eq_none_iff (ops : List PatchOperation) :
    validateOperations ops = none ↔ ∀ op ∈ ops, validateOperation op = none := by
  induction ops with
  | nil => simp [validateOperations]
  | cons each rest ih =>
    cases h : validateOperation each with
    | none => simp [validateOperations, h, ih]
    | some e => simp [validateOperations, h]

/-- Every error of the loop of `Validate` wraps the syntax sentinel. -/
theorem validateOperations_kind (ops : List PatchOperation) (e : Error)
    (h : validateOperations ops = some e) : e.kind = some .InvalidSyntax := by
  induction ops with
  | nil => simp [validateOperations] at h
  | cons each rest ih =>
    cases h1 : validateOperation each with
    | none =>
      simp [validateOperations, h1] at h
      exact ih h
    | some e1 =>
      simp [validateOperations, h1] at h
      subst h
      exact validateOperation_kind each e1 h1

/-- With the single PatchOp identifier, `Validate` is the loop over the operations. -/
theorem Validate_of_single_urn (p : PatchPayload) (hschema : p.Schemas = [patchOpURN]) :
    Validate p = .returned (validateOperations p.Operations) := by
  simp [Validate, schemaCheckFails, hschema]

/-- C3: for a payload whose schemas list is exactly the single PatchOp URN, `Validate`
returns an InvalidSyntax error if and only if some operation violates the rules, and
returns success otherwise; an add or replace with an empty path and a non-empty value
is accepted, and an empty operation list is accepted. -/
theorem Validate_operation_rules (p : PatchPayload) (hschema : p.Schemas = [patchOpURN]) :
    ((∃ e, Validate p = .returned (some e) ∧ e.kind = some .InvalidSyntax) ↔
      ∃ op ∈ p.Operations, ¬ OperationRulesHold op) ∧
    ((¬ ∃ op ∈ p.Operations, ¬ OperationRulesHold op) → Validate p = .returned none) ∧
    (∀ op : PatchOperation, (op.Op = "add" ∨ op.Op = "replace") → op.Path = "" →
      op.Value ≠ [] → Validate ⟨p.Schemas, [op]⟩ = .returned none) ∧
    Validate ⟨p.Schemas, []⟩ = .returned none := by
  have hall : validateOperations p.Operations = none ↔
      ∀ op ∈ p.Operations, OperationRulesHold op := by
    rw [validateOperations_eq_none_iff]
    constructor
    · intro h op hop
      exact (validateOperation_eq_none_iff op).mp (h op hop)
    · intro h op hop
      exact (validateOperation_eq_none_iff op).mpr (h op hop)
  refine ⟨?_, ?_, ?_, ?_⟩
  · rw [Validate_of_single_urn p hschema]
    constructor
    · rintro ⟨e, he, -⟩
      by_contra hno
      push_neg at hno
      have hnone := hall.mpr hno
      rw [hnone] at he
      cases he
    · rintro ⟨op, hop, hbad⟩
      cases hv : validateOperations p.Operations with
      | none => exact absurd (hall.mp hv op hop) hbad
      | some e => exact ⟨e, rfl, validateOperations_kind p.Operations e hv⟩
  · intro hno
    push_neg at hno
    rw [Validate_of_single_urn p hschema, hall.mpr hno]
  · intro op hkind hpath hvalue
    rw [Validate_of_single_urn ⟨p.Schemas, [op]⟩ hschema]
    have hrules : OperationRulesHold op := by
      refine ⟨?_, fun _ => hvalue, ?_⟩
      · rcases hkind with h | h
        · exact Or.inl h
        · exact Or.inr (Or.inl h)
      · intro hrem
        rcases hkind with h | h
        · rw [h] at hrem; exact absurd hrem (by decide)
        · rw [h] at hrem; exact absurd hrem (by decide)
    simp [validateOperations, (validateOperation_eq_none_iff op).mpr hrules]
  · rw [Validate_of_single_urn ⟨p.Schemas, []⟩ hschema]
    rfl

/-- Witness of C3 on the payload of the test file with a stray value on its remove. -/
theorem Validate_operation_rules_witness :
    ((∃ e, Validate ⟨[patchOpURN], [⟨"add", "userName", [102]⟩, ⟨"remove", "timezone", [120]⟩]⟩
        = .returned (some e) ∧ e.kind = some .InvalidSyntax) ↔
      ∃ op ∈ [(⟨"add", "userName", [102]⟩ : PatchOperation), ⟨"remove", "timezone", [120]⟩],
        ¬ OperationRulesHold op) :=
  (Validate_operation_rules
    ⟨[patchOpURN], [⟨"add", "userName", [102]⟩, ⟨"remove", "timezone", [120]⟩]⟩ rfl).1

/-- C4, evaluated on the code: a payload whose only schema identifier is not the
PatchOp URN passes `Validate`, a payload with a second identifier after the URN passes
too, and a payload without identifier makes `Validate` panic instead of returning an
InvalidSyntax error. -/
theorem Validate_accepts_wrong_schema :
    Validate ⟨["urn:ietf:params:scim:schemas:core:2.0:User"], []⟩ = .returned none ∧
    Validate ⟨[patchOpURN, "urn:ietf:params:scim:schemas:core:2.0:User"], []⟩
      = .returned none ∧
    Validate ⟨[], []⟩ = .panicked "index out of range [0] with length 0" := by
  refine ⟨by decide, by decide, by decide⟩

/-- The walk of the specification started on not-found stays not-found. -/
theorem foldl_walkStep_none {A : Type} (sub : A → String → Option A)
    (chain : List ExprNode) : chain.foldl (walkStep sub) none = none := by
  induction chain with
  | nil => rfl
  | cons c next ih => simpa [List.foldl, walkStep] using ih

/-- The resolver is the fold of the walk step, from any starting attribute. -/
theorem getTargetAttribute_eq_foldl {A : Type} (sub : A → String → Option A)
    (chain : List ExprNode) (current : Option A) :
    getTargetAttribute sub current chain = chain.foldl (walkStep sub) current := by
  induction chain generalizing current with
  | nil => cases current <;> rfl
  | cons c next ih =>
    cases current with
    | none =>
      rw [List.foldl_cons]
      simp only [walkStep]
      rw [foldl_walkStep_none]
      rfl
    | some attr =>
      rw [List.foldl_cons]
      by_cases hk : c.kind = .filterRoot
      · simp only [getTargetAttribute, ExprNode.IsRootOfFilter, hk, decide_True, if_true, walkStep]
        exact ih (some attr)
      · simp only [getTargetAttribute, ExprNode.IsRootOfFilter, hk, decide_False, if_false,
          walkStep, ExprNode.Token, Bool.false_eq_true]
        exact ih (sub attr c.token)

/-- Filter roots can be dropped from a chain without changing what the walk finds. -/
theorem foldl_walkStep_filter {A : Type} (sub : A → String → Option A)
    (chain : List ExprNode) (current : Option A) :
    chain.foldl (walkStep sub) current =
      (chain.filter (fun t => !t.IsRootOfFilter)).foldl (walkStep sub) current := by
  induction chain generalizing current with
  | nil => rfl
  | cons c next ih =>
    by_cases hk : c.kind = .filterRoot
    · have hstep : walkStep sub current c = current := by
        cases current <;> simp [walkStep, hk]
      simp only [List.foldl_cons, hstep, List.filter, ExprNode.IsRootOfFilter, hk, decide_True,
        Bool.not_true]
      exact ih current
    · simp only [List.foldl_cons, List.filter, ExprNode.IsRootOfFilter, hk, decide_False,
        Bool.not_false]
      exact ih _

/-- C9: from every root attribute and for every token chain, the recursive resolver
`getTargetAttribute` returns what the iterative walk returns; the result is the one
for the chain with every filter-root token removed; an exhausted or absent chain
yields the starting attribute. -/
theorem getTargetAttribute_refines_iterativeWalk {A : Type} (sub : A → String → Option A)
    (root : A) (chain : List ExprNode) :
    getTargetAttribute sub (some root) chain = iterativeWalk sub root chain ∧
    getTargetAttribute sub (some root) chain =
      getTargetAttribute sub (some root) (chain.filter (fun t => !t.IsRootOfFilter)) ∧
    getTargetAttribute sub (some root) [] = some root := by
  refine ⟨getTargetAttribute_eq_foldl sub chain (some root), ?_, rfl⟩
  rw [getTargetAttribute_eq_foldl, getTargetAttribute_eq_foldl]
  exact foldl_walkStep_filter sub chain (some root)

/-! ### Invocations made by each phase of `Do` -/

/-- The precondition block invokes nothing but the match criteria. -/
theorem checkPrecondition_events {W R V : Type} (s : patchService W R)
    (req : PatchRequest W R) (w : W) (resource : R) (err : Option Error) (w1 : W)
    (evs : List (Event R V)) (h : checkPrecondition s req w resource = (err, w1, evs)) :
    ∀ ev ∈ evs, ev.kind = .matchCriteria ∧ ev.err = none := by
  unfold checkPrecondition at h
  split at h
  · split at h <;>
    · simp only [Prod.mk.injEq] at h
      obtain ⟨-, -, rfl⟩ := h
      intro ev hev
      simp only [List.mem_singleton] at hev
      subst hev
      exact ⟨rfl, rfl⟩
  · simp only [Prod.mk.injEq] at h
    obtain ⟨-, -, rfl⟩ := h
    intro ev hev
    cases hev

/-- A filter loop invokes nothing but filters, and only its last invocation can fail,
with the error the loop returns. -/
theorem runFilters_events {W R V : Type} (post : Bool) (resource ref : R)
    (fs : List (ByResource W R)) (index : Nat) (w : W) (err : Option Error) (w1 : W)
    (evs : List (Event R V)) (h : runFilters post resource ref index fs w = (err, w1, evs)) :
    (∀ ev ∈ evs, ev.kind = .filter) ∧ (∀ ev ∈ evs, ∀ e, ev.err = some e → err = some e) := by
  induction fs generalizing index w err w1 evs with
  | nil =>
    simp only [runFilters, Prod.mk.injEq] at h
    obtain ⟨-, -, rfl⟩ := h
    simp
  | cons f rest ih =>
    simp only [runFilters] at h
    split at h
    · simp only [Prod.mk.injEq] at h
      obtain ⟨rfl, -, rfl⟩ := h
      constructor
      · intro ev hev
        simp only [List.mem_singleton] at hev
        subst hev
        rfl
      · intro ev hev e he
        simp only [List.mem_singleton] at hev
        subst hev
        simpa [Event.err] using he
    · rename_i w2 hf
      rcases hrest : runFilters post resource ref (index + 1) rest w2 with ⟨err2, w3, evs3⟩
      rw [hrest] at h
      simp only [Prod.mk.injEq] at h
      obtain ⟨rfl, -, rfl⟩ := h
      have := ih (index + 1) w2 err2 w3 evs3 hrest
      constructor
      · intro ev hev
        simp only [List.mem_cons] at hev
        rcases hev with rfl | hev
        · rfl
        · exact this.1 ev hev
      · intro ev hev e he
        simp only [List.mem_cons] at hev
        rcases hev with rfl | hev
        · simp [Event.err] at he
        · exact this.2 ev hev e he

/-- The method `ParseValue` invokes nothing but the deserializer, whose error it returns. -/
theorem ParseValue_events {W R A P V : Type} (lib : Library W R A P V) (w : W) (resource : R)
    (o : PatchOperation) (res : Except Error V) (evs : List (Event R V))
    (h : ParseValue lib w resource o = (res, evs)) :
    (∀ ev ∈ evs, ev.kind = .deserialize) ∧
    (∀ ev ∈ evs, ∀ e, ev.err = some e → res = .error e) := by
  unfold ParseValue at h
  split at h
  · simp only [Prod.mk.injEq] at h
    obtain ⟨-, rfl⟩ := h
    simp
  · split at h
    · simp only [Prod.mk.injEq] at h
      obtain ⟨-, rfl⟩ := h
      simp
    · split at h <;>
      · simp only [Prod.mk.injEq] at h
        obtain ⟨rfl, rfl⟩ := h
        simp [Event.kind, Event.err]

/-- One operation invokes nothing but the deserializer, the value parse and a mutator,
and an invocation that fails makes the operation fail with that error. -/
theorem applyOperation_events {W R A P V : Type} (lib : Library W R A P V) (resource : R)
    (patchOp : PatchOperation) (w : W) (err : Option Error) (w1 : W) (evs : List (Event R V))
    (h : applyOperation lib resource patchOp w = (err, w1, evs)) :
    (∀ ev ∈ evs, ev.kind.isOperation = true) ∧
    (∀ ev ∈ evs, ∀ e, ev.err = some e → err = some e) := by
  unfold applyOperation at h
  split_ifs at h
  · rcases hpv : ParseValue lib w resource patchOp with ⟨res, pevs⟩
    have hp := ParseValue_events lib w resource patchOp res pevs hpv
    rw [hpv] at h
    cases res with
    | error e0 =>
      simp only [Prod.mk.injEq] at h
      obtain ⟨rfl, -, rfl⟩ := h
      constructor
      · intro ev hev
        simp only [List.mem_append, List.mem_singleton] at hev
        rcases hev with hev | rfl
        · rw [hp.1 ev hev]; rfl
        · rfl
      · intro ev hev e he
        simp only [List.mem_append, List.mem_singleton] at hev
        rcases hev with hev | rfl
        · have := hp.2 ev hev e he
          simp only [Except.error.injEq] at this
          rw [this]
        · simpa [Event.err] using he
    | ok v =>
      simp only [Prod.mk.injEq] at h
      obtain ⟨rfl, -, rfl⟩ := h
      constructor
      · intro ev hev
        simp only [List.mem_append, List.mem_cons, List.mem_singleton, List.mem_nil_iff,
          or_false] at hev
        rcases hev with hev | rfl | rfl
        · rw [hp.1 ev hev]; rfl
        · rfl
        · rfl
      · intro ev hev e he
        simp only [List.mem_append, List.mem_cons, List.mem_singleton, List.mem_nil_iff,
          or_false] at hev
        rcases hev with hev | rfl | rfl
        · have := hp.2 ev hev e he
          cases this
        · simp [Event.err] at he
        · simpa [Event.err] using he
  · rcases hpv : ParseValue lib w resource patchOp with ⟨res, pevs⟩
    have hp := ParseValue_events lib w resource patchOp res pevs hpv
    rw [hpv] at h
    cases res with
    | error e0 =>
      simp only [Prod.mk.injEq] at h
      obtain ⟨rfl, -, rfl⟩ := h
      constructor
      · intro ev hev
        simp only [List.mem_append, List.mem_singleton] at hev
        rcases hev with hev | rfl
        · rw [hp.1 ev hev]; rfl
        · rfl
      · intro ev hev e he
        simp only [List.mem_append, List.mem_singleton] at hev
        rcases hev with hev | rfl
        · have := hp.2 ev hev e he
          simp only [Except.error.injEq] at this
          rw [this]
        · simpa [Event.err] using he
    | ok v =>
      simp only [Prod.mk.injEq] at h
      obtain ⟨rfl, -, rfl⟩ := h
      constructor
      · intro ev hev
        simp only [List.mem_append, List.mem_cons, List.mem_singleton, List.mem_nil_iff,
          or_false] at hev
        rcases hev with hev | rfl | rfl
        · rw [hp.1 ev hev]; rfl
        · rfl
        · rfl
      · intro ev hev e he
        simp only [List.mem_append, List.mem_cons, List.mem_singleton, List.mem_nil_iff,
          or_false] at hev
        rcases hev with hev | rfl | rfl
        · have := hp.2 ev hev e he
          cases this
        · simp [Event.err] at he
        · simpa [Event.err] using he
  · simp only [Prod.mk.injEq] at h
    obtain ⟨rfl, -, rfl⟩ := h
    constructor
    · intro ev hev
      simp only [List.mem_singleton] at hev
      subst hev
      rfl
    · intro ev hev e he
      simp only [List.mem_singleton] at hev
      subst hev
      simpa [Event.err] using he
  · simp only [Prod.mk.injEq] at h
    obtain ⟨-, -, rfl⟩ := h
    simp

/-- The operation loop invokes nothing but the deserializer, the value parse and the
mutators, and an invocation that fails makes the loop fail with that error. -/
theorem applyOperations_events {W R A P V : Type} (lib : Library W R A P V) (resource : R)
    (ops : List PatchOperation) (w : W) (err : Option Error) (w1 : W) (evs : List (Event R V))
    (h : applyOperations lib resource ops w = (err, w1, evs)) :
    (∀ ev ∈ evs, ev.kind.isOperation = true) ∧
    (∀ ev ∈ evs, ∀ e, ev.err = some e → err = some e) := by
  induction ops generalizing w err w1 evs with
  | nil =>
    simp only [applyOperations, Prod.mk.injEq] at h
    obtain ⟨-, -, rfl⟩ := h
    simp
  | cons patchOp rest ih =>
    simp only [applyOperations] at h
    rcases hop : applyOperation lib resource patchOp w with ⟨err1, w2, evs1⟩
    have h1 := applyOperation_events lib resource patchOp w err1 w2 evs1 hop
    rw [hop] at h
    cases err1 with
    | some e1 =>
      simp only [Prod.mk.injEq] at h
      obtain ⟨rfl, -, rfl⟩ := h
      exact h1
    | none =>
      rcases hrest : applyOperations lib resource rest w2 with ⟨err2, w3, evs2⟩
      have h2 := ih w2 err2 w3 evs2 hrest
      simp only [hrest, Prod.mk.injEq] at h
      obtain ⟨rfl, -, rfl⟩ := h
      constructor
      · intro ev hev
        simp only [List.mem_append] at hev
        rcases hev with hev | hev
        · exact h1.1 ev hev
        · exact h2.1 ev hev
      · intro ev hev e he
        simp only [List.mem_append] at hev
        rcases hev with hev | hev
        · have := h1.2 ev hev e he
          cases this
        · exact h2.2 ev hev e he

/-! ### Orchestration: `Do` -/

/-- C8: when PATCH support is not advertised, or the request or its payload source is
absent, or the payload cannot be read or deserialized, or `Validate` returns an error,
`Do` returns an error and invokes no collaborator at all, so neither storage Get nor
storage Replace; and whenever an invocation appears in the trace, the support check,
the parsing and the validation have all succeeded. -/
theorem Do_no_storage_access_before_validation {W R A P V : Type} (lib : Library W R A P V)
    (s : patchService W R) (w : W) (req : Option (PatchRequest W R))
    (h : s.config.PatchSupported = false ∨ req = none ∨
      (∃ r, req = some r ∧ r.PayloadSource = none) ∨
      (∃ r e, req = some r ∧ r.PayloadSource = some (.error e)) ∨
      (∃ r raw e, req = some r ∧ r.PayloadSource = some (.ok raw) ∧
        lib.Unmarshal raw = .error e) ∨
      (∃ patch e, parseRequest lib req = .ok patch ∧ Validate patch = .returned (some e))) :
    (∃ e, (Do lib s w req).outcome = .returned (none, some e)) ∧
    (Do lib s w req).trace = [] ∧
    (∀ ev ∈ (Do lib s w req).trace, ev.kind ≠ .storageGet ∧ ev.kind ≠ .storageReplace) ∧
    (Do lib s w req).world = w := by
  have key : (∃ e, (Do lib s w req).outcome = .returned (none, some e)) ∧
      (Do lib s w req).trace = [] ∧ (Do lib s w req).world = w := by
    by_cases hs : s.config.PatchSupported = false
    · simp [Do, checkSupport, hs]
    · have hs1 : checkSupport s = none := by
        simp only [Bool.not_eq_false] at hs
        simp [checkSupport, hs]
      rcases h with h | h | ⟨r, h, hsrc⟩ | ⟨r, e, h, hsrc⟩ | ⟨r, raw, e, h, hsrc, hun⟩ |
        ⟨patch, e, hparse, hval⟩
      · exact absurd h hs
      · subst h
        simp [Do, hs1, parseRequest]
      · subst h
        simp [Do, hs1, parseRequest, hsrc]
      · subst h
        simp [Do, hs1, parseRequest, hsrc]
      · subst h
        simp [Do, hs1, parseRequest, hsrc, hun]
      · simp [Do, hs1, hparse, hval]
  refine ⟨key.1, key.2.1, ?_, key.2.2⟩
  rw [key.2.1]
  intro ev hev
  cases hev

/-- Witness of C8 on the instance: a remove carrying a value is rejected by `Validate`
before the store is touched. -/
theorem Do_no_storage_access_before_validation_witness :
    (∃ e, (Do toyLib toyService toyWorld (some (toyRequest [4]))).outcome
      = .returned (none, some e)) ∧
    (Do toyLib toyService toyWorld (some (toyRequest [4]))).trace = [] :=
  have h := Do_no_storage_access_before_validation toyLib toyService toyWorld
    (some (toyRequest [4]))
    (Or.inr (Or.inr (Or.inr (Or.inr (Or.inr
      ⟨⟨[patchOpURN], [⟨"remove", "timezone", [120]⟩]⟩,
        ⟨some .InvalidSyntax, "value is unnecessary for remove operation"⟩,
        by rfl, by decide⟩)))))
  ⟨h.1, h.2.1⟩

/-- C5: for a request that passes the support check, parsing, validation and Get, when
ETag support is enabled and the match criteria is present and returns false on the
fetched resource, `Do` fails with a Conflict error and no response, and its only
invocations are the Get and the match criteria: no filter, no value parse, no mutator
and no storage Replace. -/
theorem Do_precondition_conflict {W R A P V : Type} (lib : Library W R A P V)
    (s : patchService W R) (w w1 w2 : W) (req : PatchRequest W R) (patch : PatchPayload)
    (resource : R) (criteria : W → R → Bool × W)
    (hsupport : checkSupport s = none)
    (hparse : parseRequest lib (some req) = .ok patch)
    (hvalid : Validate patch = .returned none)
    (hget : s.database.Get w req.ResourceID = (.ok resource, w1))
    (hetag : s.config.ETagSupported = true)
    (hcriteria : req.MatchCriteria = some criteria)
    (hfalse : criteria w1 resource = (false, w2)) :
    (∃ e, (Do lib s w (some req)).outcome = .returned (none, some e) ∧
      e.kind = some .Conflict) ∧
    (Do lib s w (some req)).trace =
      [.Get req.ResourceID none, .MatchCriteria resource false] ∧
    (∀ ev ∈ (Do lib s w (some req)).trace,
      ev.kind ≠ .filter ∧ ev.kind ≠ .parseValue ∧ ev.kind ≠ .deserialize ∧
      ev.kind ≠ .mutator ∧ ev.kind ≠ .storageReplace) ∧
    (Do lib s w (some req)).world = w2 := by
  have hpre : checkPrecondition s req w1 resource =
      ((some ⟨some .Conflict, "resource does not meet pre condition"⟩, w2,
        [.MatchCriteria resource false]) : Option Error × W × List (Event R V)) := by
    simp [checkPrecondition, hetag, hcriteria, hfalse]
  have htrace : (Do lib s w (some req)).trace =
      [.Get req.ResourceID none, .MatchCriteria resource false] := by
    simp [Do, hsupport, hparse, hvalid, hget, hpre]
  refine ⟨?_, htrace, ?_, ?_⟩
  · simp [Do, hsupport, hparse, hvalid, hget, hpre]
  · rw [htrace]
    intro ev hev
    simp only [List.mem_cons, List.mem_singleton, List.mem_nil_iff, or_false] at hev
    rcases hev with rfl | rfl <;> simp [Event.kind]
  · simp [Do, hsupport, hparse, hvalid, hget, hpre]

/-- Witness of C5 on the instance: the stored version is `v1`, the request asks for `v0`. -/
theorem Do_precondition_conflict_witness :
    (Do toyLib toyService toyWorld (some (toyRequestIfMatch [1] "v0"))).trace =
      [.Get "foo" none, .MatchCriteria 1 false] :=
  (Do_precondition_conflict toyLib toyService toyWorld
    [toyUser, toyUser]
    [toyUser, toyUser]
    (toyRequestIfMatch [1] "v0")
    ⟨[patchOpURN], [⟨"add", "userName", [102, 111, 111, 98, 97, 114]⟩,
        ⟨"replace", "emails[primary eq true].type", [119, 111, 114, 107]⟩,
        ⟨"remove", "timezone", []⟩]⟩
    1 (fun w r => (decide ((toyDeref w r).version = "v0"), w))
    (by rfl) (by rfl) (by decide) (by rfl) (by rfl) (by rfl) (by rfl)).2.1

/-- What `Do` is once every step up to the operation loop has succeeded: the
post-filters and the commit, run on the world left by the operations. -/
theorem Do_eq_postFiltersAndCommit {W R A P V : Type} (lib : Library W R A P V)
    (s : patchService W R) (w w1 w2 w3 w4 w5 : W) (req : PatchRequest W R)
    (patch : PatchPayload) (resource ref : R) (evs2 evs4 evs5 : List (Event R V))
    (hsupport : checkSupport s = none)
    (hparse : parseRequest lib (some req) = .ok patch)
    (hvalid : Validate patch = .returned none)
    (hget : s.database.Get w req.ResourceID = (.ok resource, w1))
    (hpre : checkPrecondition s req w1 resource = (none, w2, evs2))
    (hclone : lib.Clone w2 resource = (ref, w3))
    (hprefilters : runFilters false resource ref 0 s.preFilters w3 = (none, w4, evs4))
    (hops : applyOperations lib resource patch.Operations w4 = (none, w5, evs5)) :
    Do lib s w (some req) = postFiltersAndCommit lib s resource ref w5
      (.Get req.ResourceID none :: evs2 ++ .Clone resource ref :: evs4 ++ evs5) := by
  simp [Do, hsupport, hparse, hvalid, hget, hpre, hclone, hprefilters, hops]

/-- Events of the steps before the commit are no storage Replace. -/
theorem no_storageReplace_before_commit {W R A P V : Type} (lib : Library W R A P V)
    (s : patchService W R) (w1 w2 w3 w4 w5 w6 : W) (req : PatchRequest W R)
    (ops : List PatchOperation) (resource ref : R) (id : String) (e2 e4 e5 e6 : Option Error)
    (evs2 evs4 evs5 evs6 : List (Event R V))
    (hpre : checkPrecondition s req w1 resource = (e2, w2, evs2))
    (hprefilters : runFilters false resource ref 0 s.preFilters w3 = (e4, w4, evs4))
    (hops : applyOperations lib resource ops w4 = (e5, w5, evs5))
    (hpost : runFilters true resource ref 0 s.postFilters w5 = (e6, w6, evs6)) :
    ∀ ev ∈ (.Get id none :: evs2 ++ .Clone resource ref :: evs4 ++ evs5 ++ evs6 :
      List (Event R V)), ev.kind ≠ .storageReplace := by
  intro ev hev
  simp only [List.cons_append, List.append_assoc, List.mem_cons, List.mem_append] at hev
  rcases hev with rfl | hev | rfl | hev | hev | hev
  · simp [Event.kind]
  · rw [(checkPrecondition_events s req w1 resource e2 w2 evs2 hpre ev hev).1]
    decide
  · simp [Event.kind]
  · rw [(runFilters_events false resource ref s.preFilters 0 w3 e4 w4 evs4 hprefilters).1 ev hev]
    decide
  · have := (applyOperations_events lib resource ops w4 e5 w5 evs5 hops).1 ev hev
    intro hk
    rw [hk] at this
    cases this
  · rw [(runFilters_events true resource ref s.postFilters 0 w5 e6 w6 evs6 hpost).1 ev hev]
    decide

/-- C1: when the support check, parsing, validation, Get, the precondition, every
pre-filter, every operation and every post-filter succeed and the version token of the
live resource equals the one of the pre-image, `Do` returns no error and the response
Patched = false, Resource = the pre-image (the clone of the fetched resource),
OldVersion = the version token of the pre-image, and storage Replace is not invoked,
whatever the operation list of the payload is. -/
theorem Do_not_patched {W R A P V : Type} (lib : Library W R A P V)
    (s : patchService W R) (w w1 w2 w3 w4 w5 w6 : W) (req : PatchRequest W R)
    (patch : PatchPayload) (resource ref : R) (evs2 evs4 evs5 evs6 : List (Event R V))
    (hsupport : checkSupport s = none)
    (hparse : parseRequest lib (some req) = .ok patch)
    (hvalid : Validate patch = .returned none)
    (hget : s.database.Get w req.ResourceID = (.ok resource, w1))
    (hpre : checkPrecondition s req w1 resource = (none, w2, evs2))
    (hclone : lib.Clone w2 resource = (ref, w3))
    (hprefilters : runFilters false resource ref 0 s.preFilters w3 = (none, w4, evs4))
    (hops : applyOperations lib resource patch.Operations w4 = (none, w5, evs5))
    (hpost : runFilters true resource ref 0 s.postFilters w5 = (none, w6, evs6))
    (hversion : lib.MetaVersionOrEmpty w6 resource = lib.MetaVersionOrEmpty w6 ref) :
    (Do lib s w (some req)).outcome =
      .returned (some ⟨false, ref, lib.MetaVersionOrEmpty w6 ref⟩, none) ∧
    (Do lib s w (some req)).world = w6 ∧
    (Do lib s w (some req)).trace =
      .Get req.ResourceID none :: evs2 ++ .Clone resource ref :: evs4 ++ evs5 ++ evs6 ∧
    (∀ ev ∈ (Do lib s w (some req)).trace, ev.kind ≠ .storageReplace) := by
  have hdo : Do lib s w (some req) =
      ⟨.returned (some ⟨false, ref, lib.MetaVersionOrEmpty w6 ref⟩, none), w6,
        .Get req.ResourceID none :: evs2 ++ .Clone resource ref :: evs4 ++ evs5 ++ evs6⟩ := by
    rw [Do_eq_postFiltersAndCommit lib s w w1 w2 w3 w4 w5 req patch resource ref evs2 evs4 evs5
      hsupport hparse hvalid hget hpre hclone hprefilters hops]
    simp [postFiltersAndCommit, hpost, diffAndCommit, hversion]
  rw [hdo]
  refine ⟨rfl, rfl, rfl, ?_⟩
  exact no_storageReplace_before_commit lib s w1 w2 w3 w4 w5 w6 req patch.Operations resource ref
    req.ResourceID none none none none evs2 evs4 evs5 evs6 hpre hprefilters hops hpost

/-- Witness of C1 on the instance: adding the user name the user already has. -/
theorem Do_not_patched_witness :
    (Do toyLib toyService toyWorld (some (toyRequest [2]))).outcome =
      .returned (some ⟨false, 2, "v1"⟩, none) :=
  (Do_not_patched toyLib toyService toyWorld
    [toyUser, toyUser]
    [toyUser, toyUser]
    [toyUser, toyUser, toyUser]
    [toyUser, toyUser, toyUser]
    [toyUser, toyUser, toyUser]
    [toyUser, toyUser, toyUser]
    (toyRequest [2]) ⟨[patchOpURN], [⟨"add", "userName", [102, 111, 111]⟩]⟩ 1 2
    [] []
    [.DeserializeProperty [102, 111, 111] true none,
      .ParseValue ⟨"add", "userName", [102, 111, 111]⟩ 1 none,
      .Add 1 "userName" "foo" none]
    [.FilterRef true 0 1 2 none]
    (by rfl) (by rfl) (by decide) (by rfl) (by rfl) (by rfl) (by rfl) (by rfl) (by rfl)
    (by rfl)).1

/-- C2: when every step up to and including the post-filters succeeds and the version
token of the live resource differs from the one of the pre-image, `Do` invokes storage
Replace exactly once, on (pre-image, live resource); if the call succeeds `Do` returns
Patched = true, Resource = the live resource and OldVersion = the version token of the
pre-image, which differs from the version token the returned resource had when `Do`
compared the two (and still has after the call, if the store left it unchanged); if
the call fails `Do` returns its error and no response. -/
theorem Do_commit {W R A P V : Type} (lib : Library W R A P V)
    (s : patchService W R) (w w1 w2 w3 w4 w5 w6 w7 : W) (req : PatchRequest W R)
    (patch : PatchPayload) (resource ref : R) (evs2 evs4 evs5 evs6 : List (Event R V))
    (result : Option Error)
    (hsupport : checkSupport s = none)
    (hparse : parseRequest lib (some req) = .ok patch)
    (hvalid : Validate patch = .returned none)
    (hget : s.database.Get w req.ResourceID = (.ok resource, w1))
    (hpre : checkPrecondition s req w1 resource = (none, w2, evs2))
    (hclone : lib.Clone w2 resource = (ref, w3))
    (hprefilters : runFilters false resource ref 0 s.preFilters w3 = (none, w4, evs4))
    (hops : applyOperations lib resource patch.Operations w4 = (none, w5, evs5))
    (hpost : runFilters true resource ref 0 s.postFilters w5 = (none, w6, evs6))
    (hversion : lib.MetaVersionOrEmpty w6 resource ≠ lib.MetaVersionOrEmpty w6 ref)
    (hreplace : s.database.Replace w6 ref resource = (result, w7)) :
    (Do lib s w (some req)).trace =
      (.Get req.ResourceID none :: evs2 ++ .Clone resource ref :: evs4 ++ evs5 ++ evs6) ++
        [.DbReplace ref resource result] ∧
    (Do lib s w (some req)).trace.filter (fun ev => decide (ev.kind = .storageReplace)) =
      [.DbReplace ref resource result] ∧
    (Do lib s w (some req)).world = w7 ∧
    (result = none →
      (Do lib s w (some req)).outcome =
        .returned (some ⟨true, resource, lib.MetaVersionOrEmpty w6 ref⟩, none) ∧
      lib.MetaVersionOrEmpty w6 ref ≠ lib.MetaVersionOrEmpty w6 resource ∧
      (lib.MetaVersionOrEmpty w7 resource = lib.MetaVersionOrEmpty w6 resource →
        lib.MetaVersionOrEmpty w6 ref ≠ lib.MetaVersionOrEmpty w7 resource)) ∧
    (∀ err, result = some err →
      (Do lib s w (some req)).outcome = .returned (none, some err)) := by
  have hdo : Do lib s w (some req) =
      ⟨(match result with
        | some err => .returned (none, some err)
        | none => .returned (some ⟨true, resource, lib.MetaVersionOrEmpty w6 ref⟩, none)), w7,
        (.Get req.ResourceID none :: evs2 ++ .Clone resource ref :: evs4 ++ evs5 ++ evs6) ++
          [.DbReplace ref resource result]⟩ := by
    rw [Do_eq_postFiltersAndCommit lib s w w1 w2 w3 w4 w5 req patch resource ref evs2 evs4 evs5
      hsupport hparse hvalid hget hpre hclone hprefilters hops]
    cases result <;> simp [postFiltersAndCommit, hpost, diffAndCommit, hversion, hreplace]
  have hbefore := no_storageReplace_before_commit lib s w1 w2 w3 w4 w5 w6 req patch.Operations
    resource ref req.ResourceID none none none none evs2 evs4 evs5 evs6 hpre hprefilters hops
    hpost
  rw [hdo]
  refine ⟨rfl, ?_, rfl, ?_, ?_⟩
  · rw [List.filter_append]
    have hnil : List.filter (fun ev => decide (ev.kind = .storageReplace))
        (.Get req.ResourceID none :: evs2 ++ .Clone resource ref :: evs4 ++ evs5 ++ evs6 :
          List (Event R V)) = [] := by
      rw [List.filter_eq_nil_iff]
      intro ev hev
      simpa using hbefore ev hev
    rw [hnil]
    simp [Event.kind]
  · intro hr
    subst hr
    exact ⟨rfl, fun h => hversion h.symm, fun h7 h => hversion (h7 ▸ h.symm)⟩
  · intro err hr
    subst hr
    rfl

/-- Witness of C2 on the instance: the three operations of the test file are committed. -/
theorem Do_commit_witness :
    (Do toyLib toyService toyWorld (some (toyRequest [1]))).outcome =
      .returned (some ⟨true, 1, "v1"⟩, none) ∧
    (Do toyLib toyService toyWorld (some (toyRequest [1]))).trace.filter
      (fun ev => decide (ev.kind = .storageReplace)) = [.DbReplace 2 1 none] :=
  have h := Do_commit toyLib toyService toyWorld
    [toyUser, toyUser] [toyUser, toyUser] [toyUser, toyUser, toyUser]
    [toyUser, toyUser, toyUser]
    [toyUser, ⟨"foobar", "", "work", "v1"⟩, toyUser]
    [toyUser, ⟨"foobar", "", "work", "v1+"⟩, toyUser]
    [⟨"foobar", "", "work", "v1+"⟩, ⟨"foobar", "", "work", "v1+"⟩, toyUser]
    (toyRequest [1])
    ⟨[patchOpURN], [⟨"add", "userName", [102, 111, 111, 98, 97, 114]⟩,
        ⟨"replace", "emails[primary eq true].type", [119, 111, 114, 107]⟩,
        ⟨"remove", "timezone", []⟩]⟩
    1 2 [] []
    [.DeserializeProperty [102, 111, 111, 98, 97, 114] true none,
      .ParseValue ⟨"add", "userName", [102, 111, 111, 98, 97, 114]⟩ 1 none,
      .Add 1 "userName" "foobar" none,
      .DeserializeProperty [119, 111, 114, 107] false none,
      .ParseValue ⟨"replace", "emails[primary eq true].type", [119, 111, 114, 107]⟩ 1 none,
      .Replace 1 "emails[primary eq true].type" "work" none,
      .Delete 1 "timezone" none]
    [.FilterRef true 0 1 2 none]
    none
    (by rfl) (by rfl) (by decide) (by rfl) (by rfl) (by rfl) (by rfl) (by rfl) (by rfl)
    (by decide) (by rfl)
  ⟨(h.2.2.2.1 rfl).1, h.2.1⟩

/-- Shape of every run of `Do`: it panics before any invocation; or it returns an error
and no response without a storage Replace; or it returns a not-patched response
without a storage Replace, every invocation having succeeded; or its last invocation
is the only storage Replace, every earlier invocation having succeeded, and the
result is the one of that Replace. -/
theorem Do_shape {W R A P V : Type} (lib : Library W R A P V) (s : patchService W R) (w : W)
    (req : Option (PatchRequest W R)) :
    (∃ m, (Do lib s w req).outcome = .panicked m ∧ (Do lib s w req).trace = []) ∨
    (∃ e, (Do lib s w req).outcome = .returned (none, some e) ∧
      ∀ ev ∈ (Do lib s w req).trace, ev.kind ≠ .storageReplace) ∨
    (∃ ref version, (Do lib s w req).outcome = .returned (some ⟨false, ref, version⟩, none) ∧
      ∀ ev ∈ (Do lib s w req).trace, ev.kind ≠ .storageReplace ∧ ev.err = none) ∨
    (∃ before ref resource result version,
      (Do lib s w req).trace = before ++ [.DbReplace ref resource result] ∧
      (∀ ev ∈ before, ev.kind ≠ .storageReplace ∧ ev.err = none) ∧
      (Do lib s w req).outcome =
        (match result with
          | some err => .returned (none, some err)
          | none => .returned (some ⟨true, resource, version⟩, none))) := by
  cases hs : checkSupport s with
  | some err =>
    refine Or.inr (Or.inl ⟨err, ?_, ?_⟩) <;> simp [Do, hs]
  | none =>
  cases hp : parseRequest lib req with
  | error err =>
    refine Or.inr (Or.inl ⟨err, ?_, ?_⟩) <;> simp [Do, hs, hp]
  | ok patch =>
  cases hv : Validate patch with
  | panicked m =>
    refine Or.inl ⟨m, ?_, ?_⟩ <;> simp [Do, hs, hp, hv]
  | returned verr =>
  cases verr with
  | some err =>
    refine Or.inr (Or.inl ⟨err, ?_, ?_⟩) <;> simp [Do, hs, hp, hv]
  | none =>
  cases req with
  | none => simp [parseRequest] at hp
  | some r =>
  rcases hg : s.database.Get w r.ResourceID with ⟨got, w1⟩
  cases got with
  | error err =>
    refine Or.inr (Or.inl ⟨err, ?_, ?_⟩) <;> simp [Do, hs, hp, hv, hg, Event.kind]
  | ok resource =>
  rcases hc : (checkPrecondition s r w1 resource : Option Error × W × List (Event R V))
    with ⟨perr, w2, evs2⟩
  have hevs2 := checkPrecondition_events s r w1 resource perr w2 evs2 hc
  cases perr with
  | some err =>
    refine Or.inr (Or.inl ⟨err, ?_, ?_⟩)
    · simp [Do, hs, hp, hv, hg, hc]
    · have ht : (Do lib s w (some r)).trace = .Get r.ResourceID none :: evs2 := by
        simp [Do, hs, hp, hv, hg, hc]
      rw [ht]
      intro ev hev
      simp only [List.mem_cons] at hev
      rcases hev with rfl | hev
      · simp [Event.kind]
      · rw [(hevs2 ev hev).1]; decide
  | none =>
  rcases hcl : lib.Clone w2 resource with ⟨ref, w3⟩
  rcases hf : (runFilters false resource ref 0 s.preFilters w3 :
    Option Error × W × List (Event R V)) with ⟨ferr, w4, evs4⟩
  have hevs4 := runFilters_events false resource ref s.preFilters 0 w3 ferr w4 evs4 hf
  cases ferr with
  | some err =>
    refine Or.inr (Or.inl ⟨err, ?_, ?_⟩)
    · simp [Do, hs, hp, hv, hg, hc, hcl, hf]
    · have ht : (Do lib s w (some r)).trace =
          .Get r.ResourceID none :: evs2 ++ .Clone resource ref :: evs4 := by
        simp [Do, hs, hp, hv, hg, hc, hcl, hf]
      rw [ht]
      intro ev hev
      simp only [List.cons_append, List.mem_cons, List.mem_append] at hev
      rcases hev with rfl | hev | rfl | hev
      · simp [Event.kind]
      · rw [(hevs2 ev hev).1]; decide
      · simp [Event.kind]
      · rw [hevs4.1 ev hev]; decide
  | none =>
  rcases ho : applyOperations lib resource patch.Operations w4 with ⟨oerr, w5, evs5⟩
  have hevs5 := applyOperations_events lib resource patch.Operations w4 oerr w5 evs5 ho
  have hk5 : ∀ ev ∈ evs5, ev.kind ≠ .storageReplace := by
    intro ev hev hk
    have := hevs5.1 ev hev
    rw [hk] at this
    cases this
  cases oerr with
  | some err =>
    refine Or.inr (Or.inl ⟨err, ?_, ?_⟩)
    · simp [Do, hs, hp, hv, hg, hc, hcl, hf, ho]
    · have ht : (Do lib s w (some r)).trace =
          .Get r.ResourceID none :: evs2 ++ .Clone resource ref :: evs4 ++ evs5 := by
        simp [Do, hs, hp, hv, hg, hc, hcl, hf, ho]
      rw [ht]
      intro ev hev
      simp only [List.cons_append, List.append_assoc, List.mem_cons, List.mem_append] at hev
      rcases hev with rfl | hev | rfl | hev | hev
      · simp [Event.kind]
      · rw [(hevs2 ev hev).1]; decide
      · simp [Event.kind]
      · rw [hevs4.1 ev hev]; decide
      · exact hk5 ev hev
  | none =>
  rcases hpf : (runFilters true resource ref 0 s.postFilters w5 :
    Option Error × W × List (Event R V)) with ⟨qerr, w6, evs6⟩
  have hevs6 := runFilters_events true resource ref s.postFilters 0 w5 qerr w6 evs6 hpf
  have hbefore := no_storageReplace_before_commit lib s w1 w2 w3 w4 w5 w6 r patch.Operations
    resource ref r.ResourceID none none none qerr evs2 evs4 evs5 evs6 hc hf ho hpf
  have hdo := Do_eq_postFiltersAndCommit lib s w w1 w2 w3 w4 w5 r patch resource ref evs2 evs4
    evs5 hs hp hv hg hc hcl hf ho
  cases qerr with
  | some err =>
    refine Or.inr (Or.inl ⟨err, ?_, ?_⟩)
    · simp [hdo, postFiltersAndCommit, hpf]
    · have ht : (Do lib s w (some r)).trace =
          .Get r.ResourceID none :: evs2 ++ .Clone resource ref :: evs4 ++ evs5 ++ evs6 := by
        simp [hdo, postFiltersAndCommit, hpf]
      rw [ht]
      exact hbefore
  | none =>
  have hok : ∀ ev ∈ (.Get r.ResourceID none :: evs2 ++ .Clone resource ref :: evs4 ++ evs5 ++
      evs6 : List (Event R V)), ev.kind ≠ .storageReplace ∧ ev.err = none := by
    intro ev hev
    refine ⟨hbefore ev hev, ?_⟩
    simp only [List.cons_append, List.append_assoc, List.mem_cons, List.mem_append] at hev
    rcases hev with rfl | hev | rfl | hev | hev | hev
    · rfl
    · exact (hevs2 ev hev).2
    · rfl
    · cases he : ev.err with
      | none => rfl
      | some e => exact absurd (hevs4.2 ev hev e he) (by simp)
    · cases he : ev.err with
      | none => rfl
      | some e => exact absurd (hevs5.2 ev hev e he) (by simp)
    · cases he : ev.err with
      | none => rfl
      | some e => exact absurd (hevs6.2 ev hev e he) (by simp)
  by_cases hver : lib.MetaVersionOrEmpty w6 resource = lib.MetaVersionOrEmpty w6 ref
  · refine Or.inr (Or.inr (Or.inl ⟨ref, lib.MetaVersionOrEmpty w6 ref, ?_, ?_⟩))
    · simp [hdo, postFiltersAndCommit, hpf, diffAndCommit, hver]
    · have ht : (Do lib s w (some r)).trace =
          .Get r.ResourceID none :: evs2 ++ .Clone resource ref :: evs4 ++ evs5 ++ evs6 := by
        simp [hdo, postFiltersAndCommit, hpf, diffAndCommit, hver]
      rw [ht]
      exact hok
  · rcases hr : s.database.Replace w6 ref resource with ⟨result, w7⟩
    refine Or.inr (Or.inr (Or.inr ⟨_, ref, resource, result, lib.MetaVersionOrEmpty w6 ref,
      ?_, hok, ?_⟩))
    · cases result <;> simp [hdo, postFiltersAndCommit, hpf, diffAndCommit, hver, hr]
    · cases result <;> simp [hdo, postFiltersAndCommit, hpf, diffAndCommit, hver, hr]

/-- C6: in every execution in which `Do` returns an error, the response is absent and
no storage Replace has succeeded; and whenever a filter or an invocation of the
operation loop (deserializer, value parse, mutator) fails, `Do` returns an error and
no response, and storage Replace is not invoked at all. -/
theorem Do_atomic_on_failure {W R A P V : Type} (lib : Library W R A P V)
    (s : patchService W R) (w : W) (req : Option (PatchRequest W R)) :
    (∀ resp e, (Do lib s w req).outcome = .returned (resp, some e) →
      resp = none ∧
      ∀ ev ∈ (Do lib s w req).trace, ev.kind = .storageReplace → ev.err ≠ none) ∧
    (∀ ev ∈ (Do lib s w req).trace,
      (ev.kind = .filter ∨ ev.kind.isOperation = true) → ev.err ≠ none →
        (∃ e, (Do lib s w req).outcome = .returned (none, some e)) ∧
        ∀ ev1 ∈ (Do lib s w req).trace, ev1.kind ≠ .storageReplace) := by
  rcases Do_shape lib s w req with ⟨m, ho, ht⟩ | ⟨e0, ho, ht⟩ | ⟨ref, version, ho, ht⟩ |
    ⟨before, ref, resource, result, version, ht, hb, ho⟩
  · constructor
    · intro resp e h
      rw [ho] at h
      cases h
    · intro ev hev
      rw [ht] at hev
      cases hev
  · constructor
    · intro resp e h
      rw [ho] at h
      simp only [Completion.returned.injEq, Prod.mk.injEq] at h
      exact ⟨h.1.symm, fun ev hev hk => absurd hk (ht ev hev)⟩
    · intro ev _ _ _
      exact ⟨⟨e0, ho⟩, ht⟩
  · constructor
    · intro resp e h
      rw [ho] at h
      simp at h
    · intro ev hev _ hfail
      exact absurd (ht ev hev).2 hfail
  · constructor
    · intro resp e h
      rw [ho] at h
      cases result with
      | none => simp at h
      | some err =>
        simp only [Completion.returned.injEq, Prod.mk.injEq] at h
        refine ⟨h.1.symm, ?_⟩
        intro ev hev hk
        rw [ht] at hev
        simp only [List.mem_append, List.mem_singleton] at hev
        rcases hev with hev | rfl
        · exact absurd hk (hb ev hev).1
        · simp [Event.err]
    · intro ev hev hkind hfail
      rw [ht] at hev
      simp only [List.mem_append, List.mem_singleton] at hev
      rcases hev with hev | rfl
      · exact absurd (hb ev hev).2 hfail
      · rcases hkind with hk | hk
        · simp [Event.kind] at hk
        · simp [Event.kind, EventKind.isOperation] at hk

/-- Witness of C6 on the instance: the second operation has a path outside the schema;
the add before it is applied in memory and nothing is persisted. -/
theorem Do_atomic_on_failure_witness :
    (none : Option (PatchResponse Nat)) = none ∧
    ∀ ev ∈ (Do toyLib toyService toyWorld (some (toyRequest [3]))).trace,
      ev.kind = .storageReplace → ev.err ≠ none :=
  (Do_atomic_on_failure toyLib toyService toyWorld (some (toyRequest [3]))).1 none
    (invalidPathError "nickName") (by rfl)

/-! ### The operation loop -/

/-- The loop body, started from an accumulated run that has not failed, is the step of
the specification. -/
theorem sequentialStep_eq_applyOperation {W R A P V : Type} (lib : Library W R A P V)
    (resource : R) (op : PatchOperation) (w : W) (evs : List (Event R V)) :
    sequentialStep lib resource (none, w, evs) op =
      ((applyOperation lib resource op w).1, (applyOperation lib resource op w).2.1,
        evs ++ (applyOperation lib resource op w).2.2) := by
  have h1 : ("add" : String) ≠ "remove" := by decide
  have h2 : ("replace" : String) ≠ "remove" := by decide
  have h3 : ("add" : String) ≠ "replace" := by decide
  unfold sequentialStep applyOperation
  by_cases ha : op.Op = "add"
  · rcases hpv : ParseValue lib w resource op with ⟨res, pevs⟩
    cases res <;> simp [ha, h1, hpv]
  · by_cases hr : op.Op = "replace"
    · rcases hpv : ParseValue lib w resource op with ⟨res, pevs⟩
      cases res <;> simp [hr, h2, h3.symm, hpv]
    · by_cases hd : op.Op = "remove"
      · simp [hd, h1.symm, h2.symm]
      · simp [ha, hr, hd]

/-- A fold of the step of the specification that starts from a failed run returns it. -/
theorem foldl_sequentialStep_failed {W R A P V : Type} (lib : Library W R A P V)
    (resource : R) (ops : List PatchOperation) (err : Error) (w : W) (evs : List (Event R V)) :
    ops.foldl (sequentialStep lib resource) (some err, w, evs) = (some err, w, evs) := by
  induction ops with
  | nil => rfl
  | cons op rest ih => simpa [List.foldl, sequentialStep] using ih

/-- The loop, started from an accumulated run that has not failed, is the fold of the
step of the specification. -/
theorem foldl_sequentialStep_eq {W R A P V : Type} (lib : Library W R A P V)
    (resource : R) (ops : List PatchOperation) (w : W) (evs : List (Event R V)) :
    ops.foldl (sequentialStep lib resource) (none, w, evs) =
      ((applyOperations lib resource ops w).1, (applyOperations lib resource ops w).2.1,
        evs ++ (applyOperations lib resource ops w).2.2) := by
  induction ops generalizing w evs with
  | nil => simp [applyOperations]
  | cons op rest ih =>
    rw [List.foldl_cons, sequentialStep_eq_applyOperation]
    rcases hop : applyOperation lib resource op w with ⟨err1, w1, evs1⟩
    cases err1 with
    | some e =>
      simp only [applyOperations, hop]
      exact foldl_sequentialStep_failed lib resource rest e w1 (evs ++ evs1)
    | none =>
      simp only [applyOperations, hop]
      rw [ih w1 (evs ++ evs1)]
      simp [List.append_assoc]

/-- The loop over a list that extends a successful list goes on from the world and
the invocations of that list. -/
theorem applyOperations_append {W R A P V : Type} (lib : Library W R A P V) (resource : R)
    (before rest : List PatchOperation) (w w1 : W) (evs1 : List (Event R V))
    (h : applyOperations lib resource before w = (none, w1, evs1)) :
    applyOperations lib resource (before ++ rest) w =
      ((applyOperations lib resource rest w1).1, (applyOperations lib resource rest w1).2.1,
        evs1 ++ (applyOperations lib resource rest w1).2.2) := by
  induction before generalizing w w1 evs1 with
  | nil =>
    simp only [applyOperations, Prod.mk.injEq] at h
    obtain ⟨-, rfl, rfl⟩ := h
    simp
  | cons op more ih =>
    simp only [applyOperations] at h
    rcases hop : applyOperation lib resource op w with ⟨err1, w2, evs2⟩
    rw [hop] at h
    cases err1 with
    | some e => simp at h
    | none =>
      rcases hmore : applyOperations lib resource more w2 with ⟨err3, w3, evs3⟩
      simp only [hmore, Prod.mk.injEq] at h
      obtain ⟨rfl, rfl, rfl⟩ := h
      have hih := ih w2 w3 evs3 hmore
      rw [List.cons_append]
      simp only [applyOperations, hop, hih, List.append_assoc]

/-- The loop stops at the first failing operation: the operations after it add no
invocation and leave the world as the failing operation left it. -/
theorem applyOperations_stops {W R A P V : Type} (lib : Library W R A P V) (resource : R)
    (before after : List PatchOperation) (op : PatchOperation) (w w1 w2 : W) (e : Error)
    (evs1 evs2 : List (Event R V))
    (hbefore : applyOperations lib resource before w = (none, w1, evs1))
    (hop : applyOperation lib resource op w1 = (some e, w2, evs2)) :
    applyOperations lib resource (before ++ op :: after) w = (some e, w2, evs1 ++ evs2) := by
  rw [applyOperations_append lib resource before (op :: after) w w1 evs1 hbefore]
  simp [applyOperations, hop]

/-- C7: the mutation phase of `Do` is the left fold of the specification step over the
operations in payload order, each step parsing the value against the state left by the
earlier operations and applying the matching mutator, and it stops at the first
failing step; for an add followed by a replace on the same path, the post-filters and
the commit run on the state produced by the replace applied to the state produced by
the add. -/
theorem applyOperations_sequential {W R A P V : Type} (lib : Library W R A P V)
    (s : patchService W R) (resource ref : R) :
    (∀ ops w, applyOperations lib resource ops w = sequentialFold lib resource ops w) ∧
    (∀ before after op w w1 w2 e evs1 evs2,
      applyOperations lib resource before w = (none, w1, evs1) →
      applyOperation lib resource op w1 = (some e, w2, evs2) →
      applyOperations lib resource (before ++ op :: after) w = (some e, w2, evs1 ++ evs2)) ∧
    (∀ (w w1 w2 w3 w4 wa wb : W) (req : PatchRequest W R) (patch : PatchPayload)
      (evs2 evs4 pevs1 pevs2 : List (Event R V)) (path : String) (raw1 raw2 : RawMessage)
      (v1 v2 : V),
      checkSupport s = none →
      parseRequest lib (some req) = .ok patch →
      Validate patch = .returned none →
      s.database.Get w req.ResourceID = (.ok resource, w1) →
      checkPrecondition s req w1 resource = (none, w2, evs2) →
      lib.Clone w2 resource = (ref, w3) →
      runFilters false resource ref 0 s.preFilters w3 = (none, w4, evs4) →
      patch.Operations = [⟨"add", path, raw1⟩, ⟨"replace", path, raw2⟩] →
      ParseValue lib w4 resource ⟨"add", path, raw1⟩ = (.ok v1, pevs1) →
      lib.Add w4 resource path v1 = (none, wa) →
      ParseValue lib wa resource ⟨"replace", path, raw2⟩ = (.ok v2, pevs2) →
      lib.Replace wa resource path v2 = (none, wb) →
      Do lib s w (some req) = postFiltersAndCommit lib s resource ref wb
        (.Get req.ResourceID none :: evs2 ++ .Clone resource ref :: evs4 ++
          ((pevs1 ++ [.ParseValue ⟨"add", path, raw1⟩ resource none,
            .Add resource path v1 none]) ++
          (pevs2 ++ [.ParseValue ⟨"replace", path, raw2⟩ resource none,
            .Replace resource path v2 none])))) := by
  refine ⟨?_, ?_, ?_⟩
  · intro ops w
    unfold sequentialFold
    rw [foldl_sequentialStep_eq]
    simp
  · intro before after op w w1 w2 e evs1 evs2 hbefore hop
    exact applyOperations_stops lib resource before after op w w1 w2 e evs1 evs2 hbefore hop
  · intro w w1 w2 w3 w4 wa wb req patch evs2 evs4 pevs1 pevs2 path raw1 raw2 v1 v2
      hsupport hparse hvalid hget hpre hclone hprefilters hops hpv1 hadd hpv2 hreplace
    have h3 : ("replace" : String) ≠ "add" := by decide
    apply Do_eq_postFiltersAndCommit lib s w w1 w2 w3 w4 wb req patch resource ref evs2 evs4 _
      hsupport hparse hvalid hget hpre hclone hprefilters
    rw [hops]
    simp [applyOperations, applyOperation, hpv1, hadd, hpv2, hreplace, h3]

/-- Witness of C7 on the instance: an add of `foobar` then a replace by `bar` on the
user name; the post-filter and the commit see `bar`. -/
theorem applyOperations_sequential_witness :
    Do toyLib toyService toyWorld (some (toyRequest [5])) =
      postFiltersAndCommit toyLib toyService 1 2
        [toyUser, ⟨"bar", "Asia/Shanghai", "home", "v1"⟩, toyUser]
        (.Get "foo" none :: [] ++ .Clone 1 2 :: [] ++
          (([.DeserializeProperty [102, 111, 111, 98, 97, 114] true none] ++
            [.ParseValue ⟨"add", "userName", [102, 111, 111, 98, 97, 114]⟩ 1 none,
              .Add 1 "userName" "foobar" none]) ++
          ([.DeserializeProperty [98, 97, 114] false none] ++
            [.ParseValue ⟨"replace", "userName", [98, 97, 114]⟩ 1 none,
              .Replace 1 "userName" "bar" none]))) :=
  (applyOperations_sequential toyLib toyService 1 2).2.2 toyWorld
    [toyUser, toyUser] [toyUser, toyUser] [toyUser, toyUser, toyUser]
    [toyUser, toyUser, toyUser]
    [toyUser, ⟨"foobar", "Asia/Shanghai", "home", "v1"⟩, toyUser]
    [toyUser, ⟨"bar", "Asia/Shanghai", "home", "v1"⟩, toyUser]
    (toyRequest [5])
    ⟨[patchOpURN], [⟨"add", "userName", [102, 111, 111, 98, 97, 114]⟩,
      ⟨"replace", "userName", [98, 97, 114]⟩]⟩
    [] [] [.DeserializeProperty [102, 111, 111, 98, 97, 114] true none]
    [.DeserializeProperty [98, 97, 114] false none]
    "userName" [102, 111, 111, 98, 97, 114] [98, 97, 114] "foobar" "bar"
    (by rfl) (by rfl) (by decide) (by rfl) (by rfl) (by rfl) (by rfl) (by rfl) (by rfl)
    (by rfl) (by rfl) (by rfl)

/-- C10: for an add or replace whose non-empty path compiles and whose chain, after
the resource-type prefix rule, resolves to no attribute from the root attribute,
`ParseValue` returns the InvalidPath error and no value without invoking the
deserializer, and `Do`, having reached that operation, returns that error and no
response, its last invocation being the failed value parse: no mutator runs for the
operation. -/
theorem ParseValue_invalid_path {W R A P V : Type} (lib : Library W R A P V)
    (s : patchService W R) (w w1 w2 w3 w4 w5 : W) (req : PatchRequest W R)
    (patch : PatchPayload) (resource ref : R) (evs2 evs4 evs5 : List (Event R V))
    (before after : List PatchOperation) (o : PatchOperation) (head : ExprNode)
    (next : List ExprNode)
    (hkind : o.Op = "add" ∨ o.Op = "replace")
    (hpath : o.Path ≠ "")
    (hcompile : lib.CompilePath o.Path = .ok (head, next))
    (hresolve : getTargetAttribute lib.SubAttributeForName (lib.RootAttribute w5 resource)
      (if head.IsPath && decide (head.Token = lib.ResourceTypeID w5 resource) then next
        else head :: next) = none)
    (hsupport : checkSupport s = none)
    (hparse : parseRequest lib (some req) = .ok patch)
    (hvalid : Validate patch = .returned none)
    (hget : s.database.Get w req.ResourceID = (.ok resource, w1))
    (hpre : checkPrecondition s req w1 resource = (none, w2, evs2))
    (hclone : lib.Clone w2 resource = (ref, w3))
    (hprefilters : runFilters false resource ref 0 s.preFilters w3 = (none, w4, evs4))
    (hsplit : patch.Operations = before ++ o :: after)
    (hbefore : applyOperations lib resource before w4 = (none, w5, evs5)) :
    ParseValue lib w5 resource o = (.error (invalidPathError o.Path), []) ∧
    (invalidPathError o.Path).kind = some .InvalidPath ∧
    (invalidPathError o.Path).kind ≠ some .InvalidSyntax ∧
    (invalidPathError o.Path).kind ≠ some .InvalidValue ∧
    (Do lib s w (some req)).outcome = .returned (none, some (invalidPathError o.Path)) ∧
    (Do lib s w (some req)).trace =
      .Get req.ResourceID none :: evs2 ++ .Clone resource ref :: evs4 ++
        (evs5 ++ [.ParseValue o resource (some (invalidPathError o.Path))]) ∧
    (Do lib s w (some req)).world = w5 := by
  have hlen : o.Path.utf8ByteSize > 0 := by
    have := (utf8ByteSize_eq_zero_iff o.Path).not.mpr hpath
    omega
  have hhead : compileHead lib w5 resource o =
      .ok (if head.IsPath && decide (head.Token = lib.ResourceTypeID w5 resource) then next
        else head :: next) := by
    unfold compileHead
    rw [if_pos hlen, hcompile]
    simp only []
    split_ifs <;> rfl
  have hpv : (ParseValue lib w5 resource o : Except Error V × List (Event R V)) =
      (.error (invalidPathError o.Path), []) := by
    unfold ParseValue
    rw [hhead]
    simp only [hresolve]
  have hop : (applyOperation lib resource o w5 : Option Error × W × List (Event R V)) =
      (some (invalidPathError o.Path), w5,
        [.ParseValue o resource (some (invalidPathError o.Path))]) := by
    have h3 : ("replace" : String) ≠ "add" := by decide
    unfold applyOperation
    rcases hkind with hk | hk <;> simp [hk, h3, hpv]
  have hops := applyOperations_stops lib resource before after o w4 w5 w5
    (invalidPathError o.Path) evs5 _ hbefore hop
  rw [← hsplit] at hops
  refine ⟨hpv, rfl, by simp [invalidPathError], by simp [invalidPathError], ?_, ?_, ?_⟩ <;>
    simp [Do, hsupport, hparse, hvalid, hget, hpre, hclone, hprefilters, hops]

/-- Witness of C10 on the instance: `nickName` compiles and is not in the schema. -/
theorem ParseValue_invalid_path_witness :
    (Do toyLib toyService toyWorld (some (toyRequest [3]))).outcome =
      .returned (none, some (invalidPathError "nickName")) ∧
    (Do toyLib toyService toyWorld (some (toyRequest [3]))).trace =
      .Get "foo" none :: [] ++ .Clone 1 2 :: [] ++
        ([.DeserializeProperty [102, 111, 111, 98, 97, 114] true none,
          .ParseValue ⟨"add", "userName", [102, 111, 111, 98, 97, 114]⟩ 1 none,
          .Add 1 "userName" "foobar" none] ++
        [.ParseValue ⟨"replace", "nickName", [120]⟩ 1
          (some (invalidPathError "nickName"))]) :=
  have h := ParseValue_invalid_path toyLib toyService toyWorld
    [toyUser, toyUser] [toyUser, toyUser] [toyUser, toyUser, toyUser]
    [toyUser, toyUser, toyUser]
    [toyUser, ⟨"foobar", "Asia/Shanghai", "home", "v1"⟩, toyUser]
    (toyRequest [3])
    ⟨[patchOpURN], [⟨"add", "userName", [102, 111, 111, 98, 97, 114]⟩,
      ⟨"replace", "nickName", [120]⟩]⟩
    1 2 [] []
    [.DeserializeProperty [102, 111, 111, 98, 97, 114] true none,
      .ParseValue ⟨"add", "userName", [102, 111, 111, 98, 97, 114]⟩ 1 none,
      .Add 1 "userName" "foobar" none]
    [⟨"add", "userName", [102, 111, 111, 98, 97, 114]⟩] []
    ⟨"replace", "nickName", [120]⟩ ⟨.pathSegment, "nickName"⟩ []
    (Or.inr rfl) (by decide) (by rfl) (by rfl) (by rfl) (by rfl) (by decide) (by rfl)
    (by rfl) (by rfl) (by rfl) (by rfl) (by rfl)
  ⟨h.2.2.2.2.1, h.2.2.2.2.2.1⟩

/-! ### Case analysis of every run -/

/-- Every run of the post-filters and the commit is of one of three forms: a post-filter
failed; the versions are equal and nothing is committed; the versions differ and the
store is called once. A property that holds of the three forms holds of the run. -/
theorem postFiltersAndCommit_cases {W R A P V : Type} (lib : Library W R A P V)
    (s : patchService W R) (resource ref : R) (w5 : W) (trace : List (Event R V))
    (motive : Run W R V → Prop)
    (postFilterFailed : ∀ err w6 evs6,
      runFilters true resource ref 0 s.postFilters w5 = (some err, w6, evs6) →
      motive ⟨.returned (none, some err), w6, trace ++ evs6⟩)
    (notPatched : ∀ w6 evs6,
      runFilters true resource ref 0 s.postFilters w5 = (none, w6, evs6) →
      lib.MetaVersionOrEmpty w6 resource = lib.MetaVersionOrEmpty w6 ref →
      motive ⟨.returned (some ⟨false, ref, lib.MetaVersionOrEmpty w6 ref⟩, none), w6,
        trace ++ evs6⟩)
    (committed : ∀ w6 evs6 result w7,
      runFilters true resource ref 0 s.postFilters w5 = (none, w6, evs6) →
      lib.MetaVersionOrEmpty w6 resource ≠ lib.MetaVersionOrEmpty w6 ref →
      s.database.Replace w6 ref resource = (result, w7) →
      motive ⟨(match result with
          | some err => .returned (none, some err)
          | none => .returned (some ⟨true, resource, lib.MetaVersionOrEmpty w6 ref⟩, none)),
        w7, (trace ++ evs6) ++ [.DbReplace ref resource result]⟩) :
    motive (postFiltersAndCommit lib s resource ref w5 trace) := by
  rcases hpf : (runFilters true resource ref 0 s.postFilters w5 :
    Option Error × W × List (Event R V)) with ⟨qerr, w6, evs6⟩
  cases qerr with
  | some err =>
    have := postFilterFailed err w6 evs6 hpf
    simpa [postFiltersAndCommit, hpf] using this
  | none =>
    by_cases hver : lib.MetaVersionOrEmpty w6 resource = lib.MetaVersionOrEmpty w6 ref
    · have := notPatched w6 evs6 hpf hver
      simpa [postFiltersAndCommit, hpf, diffAndCommit, hver] using this
    · rcases hr : s.database.Replace w6 ref resource with ⟨result, w7⟩
      have := committed w6 evs6 result w7 hpf hver hr
      cases result <;> simpa [postFiltersAndCommit, hpf, diffAndCommit, hver, hr] using this

/-- Every run of `Do` is of one of six forms: it stopped before the store was read; Get
failed; the precondition failed; a pre-filter failed; an operation failed; or the
post-filters were reached. A property that holds of the six forms holds of the run. -/
theorem Do_cases {W R A P V : Type} (lib : Library W R A P V) (s : patchService W R) (w : W)
    (req : Option (PatchRequest W R)) (motive : Run W R V → Prop)
    (early : ∀ out : Completion (Option (PatchResponse R) × Option Error),
      ((∃ e, out = .returned (none, some e)) ∨ ∃ m, out = .panicked m) →
      motive ⟨out, w, []⟩)
    (getFailed : ∀ r patch err w1,
      req = some r → checkSupport s = none → parseRequest lib req = .ok patch →
      Validate patch = .returned none →
      s.database.Get w r.ResourceID = (.error err, w1) →
      motive ⟨.returned (none, some err), w1, [.Get r.ResourceID (some err)]⟩)
    (preconditionFailed : ∀ r patch resource err w1 w2 evs2,
      req = some r → checkSupport s = none → parseRequest lib req = .ok patch →
      Validate patch = .returned none →
      s.database.Get w r.ResourceID = (.ok resource, w1) →
      checkPrecondition s r w1 resource = (some err, w2, evs2) →
      motive ⟨.returned (none, some err), w2, .Get r.ResourceID none :: evs2⟩)
    (preFilterFailed : ∀ r patch resource ref err w1 w2 w3 w4 evs2 evs4,
      req = some r → checkSupport s = none → parseRequest lib req = .ok patch →
      Validate patch = .returned none →
      s.database.Get w r.ResourceID = (.ok resource, w1) →
      checkPrecondition s r w1 resource = (none, w2, evs2) →
      lib.Clone w2 resource = (ref, w3) →
      runFilters false resource ref 0 s.preFilters w3 = (some err, w4, evs4) →
      motive ⟨.returned (none, some err), w4,
        .Get r.ResourceID none :: evs2 ++ .Clone resource ref :: evs4⟩)
    (operationFailed : ∀ r patch resource ref err w1 w2 w3 w4 w5 evs2 evs4 evs5,
      req = some r → checkSupport s = none → parseRequest lib req = .ok patch →
      Validate patch = .returned none →
      s.database.Get w r.ResourceID = (.ok resource, w1) →
      checkPrecondition s r w1 resource = (none, w2, evs2) →
      lib.Clone w2 resource = (ref, w3) →
      runFilters false resource ref 0 s.preFilters w3 = (none, w4, evs4) →
      applyOperations lib resource patch.Operations w4 = (some err, w5, evs5) →
      motive ⟨.returned (none, some err), w5,
        .Get r.ResourceID none :: evs2 ++ .Clone resource ref :: evs4 ++ evs5⟩)
    (operationsApplied : ∀ r patch resource ref w1 w2 w3 w4 w5 evs2 evs4 evs5,
      req = some r → checkSupport s = none → parseRequest lib req = .ok patch →
      Validate patch = .returned none →
      s.database.Get w r.ResourceID = (.ok resource, w1) →
      checkPrecondition s r w1 resource = (none, w2, evs2) →
      lib.Clone w2 resource = (ref, w3) →
      runFilters false resource ref 0 s.preFilters w3 = (none, w4, evs4) →
      applyOperations lib resource patch.Operations w4 = (none, w5, evs5) →
      motive (postFiltersAndCommit lib s resource ref w5
        (.Get r.ResourceID none :: evs2 ++ .Clone resource ref :: evs4 ++ evs5))) :
    motive (Do lib s w req) := by
  cases hs : checkSupport s with
  | some err =>
    have := early (.returned (none, some err)) (Or.inl ⟨err, rfl⟩)
    simpa [Do, hs] using this
  | none =>
  cases hp : parseRequest lib req with
  | error err =>
    have := early (.returned (none, some err)) (Or.inl ⟨err, rfl⟩)
    simpa [Do, hs, hp] using this
  | ok patch =>
  cases hv : Validate patch with
  | panicked m =>
    have := early (.panicked m) (Or.inr ⟨m, rfl⟩)
    simpa [Do, hs, hp, hv] using this
  | returned verr =>
  cases verr with
  | some err =>
    have := early (.returned (none, some err)) (Or.inl ⟨err, rfl⟩)
    simpa [Do, hs, hp, hv] using this
  | none =>
  cases req with
  | none => simp [parseRequest] at hp
  | some r =>
  rcases hg : s.database.Get w r.ResourceID with ⟨got, w1⟩
  cases got with
  | error err =>
    have := getFailed r patch err w1 rfl hs hp hv hg
    simpa [Do, hs, hp, hv, hg] using this
  | ok resource =>
  rcases hc : (checkPrecondition s r w1 resource : Option Error × W × List (Event R V))
    with ⟨perr, w2, evs2⟩
  cases perr with
  | some err =>
    have := preconditionFailed r patch resource err w1 w2 evs2 rfl hs hp hv hg hc
    simpa [Do, hs, hp, hv, hg, hc] using this
  | none =>
  rcases hcl : lib.Clone w2 resource with ⟨ref, w3⟩
  rcases hf : (runFilters false resource ref 0 s.preFilters w3 :
    Option Error × W × List (Event R V)) with ⟨ferr, w4, evs4⟩
  cases ferr with
  | some err =>
    have := preFilterFailed r patch resource ref err w1 w2 w3 w4 evs2 evs4 rfl hs hp hv hg hc
      hcl hf
    simpa [Do, hs, hp, hv, hg, hc, hcl, hf] using this
  | none =>
  rcases ho : applyOperations lib resource patch.Operations w4 with ⟨oerr, w5, evs5⟩
  cases oerr with
  | some err =>
    have := operationFailed r patch resource ref err w1 w2 w3 w4 w5 evs2 evs4 evs5 rfl hs hp
      hv hg hc hcl hf ho
    simpa [Do, hs, hp, hv, hg, hc, hcl, hf, ho] using this
  | none =>
    have := operationsApplied r patch resource ref w1 w2 w3 w4 w5 evs2 evs4 evs5 rfl hs hp hv
      hg hc hcl hf ho
    simpa [Do, hs, hp, hv, hg, hc, hcl, hf, ho] using this

/-! ### Value parsing -/

/-- Once the cursor is known, `ParseValue` is lines 225-234 run on the attribute the
resolver finds for that cursor from the root attribute. -/
theorem ParseValue_eq_parseAtAttribute {W R A P V : Type} (lib : Library W R A P V) (w : W)
    (resource : R) (o : PatchOperation) (chain : List ExprNode)
    (h : compileHead lib w resource o = .ok chain) :
    ParseValue lib w resource o =
      parseAtAttribute lib o
        (getTargetAttribute lib.SubAttributeForName (lib.RootAttribute w resource) chain) := by
  unfold ParseValue parseAtAttribute
  rw [h]

/-- The cursor of a non-empty path that compiles: the compiled chain, without its
first node when that node passes the test of line 218. -/
theorem compileHead_of_compiled {W R A P V : Type} (lib : Library W R A P V) (w : W)
    (resource : R) (o : PatchOperation) (head : ExprNode) (next : List ExprNode)
    (hpath : o.Path ≠ "") (hcompile : lib.CompilePath o.Path = .ok (head, next)) :
    compileHead lib w resource o =
      .ok (if head.IsPath && decide (head.Token = lib.ResourceTypeID w resource) then next
        else head :: next) := by
  have hlen : o.Path.utf8ByteSize > 0 := by
    have := (utf8ByteSize_eq_zero_iff o.Path).not.mpr hpath
    omega
  unfold compileHead
  rw [if_pos hlen, hcompile]
  simp only []
  split_ifs <;> rfl

/-- C11: for a non-empty path that compiles, when the first token is a path segment
whose name equals the resource type identifier, `ParseValue` resolves the target
attribute for the chain without that first token, whatever the rest of the chain
starts with (one token is skipped, not more), and a path made of the identifier alone
resolves to the root attribute; when the first token is a filter root, or has another
name, the whole chain is resolved. -/
theorem ParseValue_skips_resource_type {W R A P V : Type} (lib : Library W R A P V) (w : W)
    (resource : R) (o : PatchOperation) (head : ExprNode) (next : List ExprNode)
    (hpath : o.Path ≠ "") (hcompile : lib.CompilePath o.Path = .ok (head, next)) :
    (head.kind = .pathSegment → head.token = lib.ResourceTypeID w resource →
      compileHead lib w resource o = .ok next ∧
      ParseValue lib w resource o = parseAtAttribute lib o
        (getTargetAttribute lib.SubAttributeForName (lib.RootAttribute w resource) next) ∧
      (next = [] →
        ParseValue lib w resource o = parseAtAttribute lib o (lib.RootAttribute w resource))) ∧
    ((head.kind = .filterRoot ∨ head.token ≠ lib.ResourceTypeID w resource) →
      compileHead lib w resource o = .ok (head :: next) ∧
      ParseValue lib w resource o = parseAtAttribute lib o
        (getTargetAttribute lib.SubAttributeForName (lib.RootAttribute w resource)
          (head :: next))) := by
  have hhead := compileHead_of_compiled lib w resource o head next hpath hcompile
  constructor
  · intro hk ht
    have hc : compileHead lib w resource o = .ok next := by
      rw [hhead]
      simp [ExprNode.IsPath, ExprNode.Token, hk, ht]
    refine ⟨hc, ParseValue_eq_parseAtAttribute lib w resource o next hc, ?_⟩
    intro hnil
    subst hnil
    rw [ParseValue_eq_parseAtAttribute lib w resource o [] hc]
    cases lib.RootAttribute w resource <;> rfl
  · intro hk
    have hc : compileHead lib w resource o = .ok (head :: next) := by
      rw [hhead]
      rcases hk with hk | hk
      · simp [ExprNode.IsPath, hk]
      · simp [ExprNode.Token, hk]
    exact ⟨hc, ParseValue_eq_parseAtAttribute lib w resource o (head :: next) hc⟩

/-- Witness of C11 on the instance: `User.userName` is resolved as `userName`. -/
theorem ParseValue_skips_resource_type_witness :
    compileHead toyLib toyWorld 0 ⟨"add", "User.userName", [102]⟩
      = .ok [⟨.pathSegment, "userName"⟩] ∧
    ParseValue toyLib toyWorld 0 ⟨"add", "User.userName", [102]⟩ =
      parseAtAttribute toyLib ⟨"add", "User.userName", [102]⟩
        (getTargetAttribute toySub (some ToyAttr.root) [⟨.pathSegment, "userName"⟩]) :=
  have h := (ParseValue_skips_resource_type toyLib toyWorld 0
    ⟨"add", "User.userName", [102]⟩ ⟨.pathSegment, "User"⟩ [⟨.pathSegment, "userName"⟩]
    (by decide) (by rfl)).1 rfl rfl
  ⟨h.1, h.2.1⟩

/-! ### Error kinds of the early failures -/

/-- C16, on the code: with PATCH support switched off, `Do` fails with the sentinel
`spec.ErrInternal`, so the error is not of kind Unsupported. -/
theorem unsupported_patch_error_kind :
    (Do toyLib toyServiceNoPatch toyWorld (some (toyRequest [1]))).outcome =
      .returned (none, some ⟨some .Internal, "patch operation is not supported"⟩) ∧
    ¬ ∃ e, (Do toyLib toyServiceNoPatch toyWorld (some (toyRequest [1]))).outcome =
        .returned (none, some e) ∧ e.kind = some .Unsupported := by
  have h : (Do toyLib toyServiceNoPatch toyWorld (some (toyRequest [1]))).outcome =
      .returned (none, some ⟨some .Internal, "patch operation is not supported"⟩) := by rfl
  refine ⟨h, ?_⟩
  rintro ⟨e, he, hk⟩
  rw [h] at he
  simp only [Completion.returned.injEq, Prod.mk.injEq, Option.some.injEq, true_and] at he
  subst he
  simp at hk

/-- C16, amended: for every request, when the configuration does not advertise PATCH
support, `Do` fails with the error of kind Internal `patch operation is not supported`
and no response, without invoking any collaborator. -/
theorem Do_unsupported_is_Internal {W R A P V : Type} (lib : Library W R A P V)
    (s : patchService W R) (w : W) (req : Option (PatchRequest W R))
    (h : s.config.PatchSupported = false) :
    (Do lib s w req).outcome =
      .returned (none, some ⟨some .Internal, "patch operation is not supported"⟩) ∧
    (Do lib s w req).trace = [] ∧ (Do lib s w req).world = w := by
  simp [Do, checkSupport, h]

/-- Witness of the amended C16 on the instance. -/
theorem Do_unsupported_is_Internal_witness :
    (Do toyLib toyServiceNoPatch toyWorld (some (toyRequest [1]))).trace = [] :=
  (Do_unsupported_is_Internal toyLib toyServiceNoPatch toyWorld (some (toyRequest [1]))
    rfl).2.1

/-- C15, on the code: a payload stream that cannot be read makes `Do` fail with the
sentinel `spec.ErrInternal`, and payload bytes the decoder rejects make it fail with
the decoder error, which wraps no sentinel; neither error is of kind InvalidSyntax. -/
theorem unreadable_payload_error_kinds :
    (Do toyLib toyService toyWorld
        (some ⟨"foo", none, some (.error ⟨none, "unexpected EOF"⟩)⟩)).outcome =
      .returned (none, some ⟨some .Internal, "failed to read request body"⟩) ∧
    (Do toyLib toyService toyWorld (some (toyRequest [123]))).outcome =
      .returned (none, some ⟨none, "unexpected end of JSON input"⟩) ∧
    (⟨some .Internal, "failed to read request body"⟩ : Error).kind ≠ some .InvalidSyntax ∧
    (⟨none, "unexpected end of JSON input"⟩ : Error).kind ≠ some .InvalidSyntax := by
  refine ⟨by rfl, by rfl, by decide, by decide⟩

/-- C15, amended: with PATCH supported, a request whose payload stream cannot be read
makes `Do` fail with the error of kind Internal `failed to read request body`, and a
request whose bytes the decoder rejects makes `Do` fail with the decoder error,
unchanged; in both cases there is no response and no collaborator is invoked. -/
theorem Do_unusable_payload {W R A P V : Type} (lib : Library W R A P V)
    (s : patchService W R) (w : W) (r : PatchRequest W R)
    (hsupport : s.config.PatchSupported = true) :
    (∀ e, r.PayloadSource = some (.error e) →
      (Do lib s w (some r)).outcome =
        .returned (none, some ⟨some .Internal, "failed to read request body"⟩) ∧
      (Do lib s w (some r)).trace = []) ∧
    (∀ raw e, r.PayloadSource = some (.ok raw) → lib.Unmarshal raw = .error e →
      (Do lib s w (some r)).outcome = .returned (none, some e) ∧
      (Do lib s w (some r)).trace = []) := by
  have hs : checkSupport s = none := by simp [checkSupport, hsupport]
  constructor
  · intro e hsrc
    simp [Do, hs, parseRequest, hsrc]
  · intro raw e hsrc hun
    simp [Do, hs, parseRequest, hsrc, hun]

/-- Witness of the amended C15 on the instance: the bytes `[123]` are not a payload. -/
theorem Do_unusable_payload_witness :
    (Do toyLib toyService toyWorld (some (toyRequest [123]))).outcome =
      .returned (none, some ⟨none, "unexpected end of JSON input"⟩) :=
  ((Do_unusable_payload toyLib toyService toyWorld (toyRequest [123]) rfl).2 [123]
    ⟨none, "unexpected end of JSON input"⟩ rfl (by rfl)).1

/-! ### The schema check of `Validate` -/

/-- C17, on the code: a payload with two schema identifiers, the first of which is not
the PatchOp URN, does get the error `invalid patch operation schema`. -/
theorem Validate_rejects_two_wrong_schemas :
    Validate ⟨["urn:ietf:params:scim:schemas:core:2.0:User",
        "urn:ietf:params:scim:schemas:core:2.0:Group"], []⟩ =
      .returned (some ⟨some .InvalidSyntax, "invalid patch operation schema"⟩) := by
  decide

/-- C17, amended: for every payload whose schemas array has two or more entries, the
first of which is not the PatchOp URN, `Validate` returns the InvalidSyntax error
`invalid patch operation schema`, whatever the operations are. -/
theorem Validate_schema_check_two_or_more (p : PatchPayload)
    (hlen : 2 ≤ p.Schemas.length) (hfirst : p.Schemas.head? ≠ some patchOpURN) :
    Validate p = .returned (some ⟨some .InvalidSyntax, "invalid patch operation schema"⟩) := by
  cases hsch : p.Schemas with
  | nil => rw [hsch] at hlen; simp at hlen
  | cons first rest =>
    rw [hsch] at hlen hfirst
    have hne : first ≠ patchOpURN := by
      intro h
      exact hfirst (by simp [h])
    have hlen1 : (first :: rest).length ≠ 1 := by
      simp only [List.length_cons] at hlen ⊢
      omega
    have hcheck : schemaCheckFails p = .returned true := by
      unfold schemaCheckFails
      rw [hsch, if_pos hlen1]
      simp [hne]
    simp [Validate, hcheck]

/-- Witness of the amended C17. -/
theorem Validate_schema_check_two_or_more_witness :
    Validate ⟨["urn:ietf:params:scim:schemas:core:2.0:User", patchOpURN],
        [⟨"add", "userName", [102]⟩]⟩ =
      .returned (some ⟨some .InvalidSyntax, "invalid patch operation schema"⟩) :=
  Validate_schema_check_two_or_more
    ⟨["urn:ietf:params:scim:schemas:core:2.0:User", patchOpURN], [⟨"add", "userName", [102]⟩]⟩
    (by decide) (by decide)

/-- C18, evaluated on the code: on a payload without schema identifier the index
expression `p.Schemas[0]` of line 179 is evaluated on an empty slice, so `Validate`
panics, whatever the operations are, and `Do` panics with it before any invocation. -/
theorem Validate_panics_without_schemas :
    (∀ ops, Validate ⟨[], ops⟩ = .panicked "index out of range [0] with length 0") ∧
    (Do toyLib toyService toyWorld (some (toyRequest [6]))).outcome =
      .panicked "index out of range [0] with length 0" ∧
    (Do toyLib toyService toyWorld (some (toyRequest [6]))).trace = [] := by
  refine ⟨fun ops => by simp [Validate, schemaCheckFails], by rfl, by rfl⟩

/-! ### The match criteria -/

/-- With ETag support off, the precondition block does nothing. -/
theorem checkPrecondition_of_etag_disabled {W R V : Type} (s : patchService W R)
    (req : PatchRequest W R) (w : W) (resource : R) (h : s.config.ETagSupported = false) :
    (checkPrecondition s req w resource : Option Error × W × List (Event R V)) =
      (none, w, []) := by
  unfold checkPrecondition
  rw [h]

/-- C14: with ETag support disabled, `Do` never evaluates the match criteria (no run
has a match-criteria invocation), and two requests with the same resource identifier
and the same payload source, whatever their match criteria, give the same result, the
same final world and the same invocations. -/
theorem Do_ignores_MatchCriteria {W R A P V : Type} (lib : Library W R A P V)
    (s : patchService W R) (w : W) (req1 req2 : PatchRequest W R)
    (hetag : s.config.ETagSupported = false)
    (hid : req1.ResourceID = req2.ResourceID)
    (hsource : req1.PayloadSource = req2.PayloadSource) :
    Do lib s w (some req1) = Do lib s w (some req2) ∧
    ∀ ev ∈ (Do lib s w (some req1)).trace, ev.kind ≠ .matchCriteria := by
  constructor
  · have hp : parseRequest lib (some req1) = parseRequest lib (some req2) := by
      simp [parseRequest, hsource]
    simp only [Do, hp, hid, checkPrecondition_of_etag_disabled s _ _ _ hetag]
  · apply Do_cases lib s w (some req1)
      (fun run => ∀ ev ∈ run.trace, ev.kind ≠ .matchCriteria)
    · intro out _ ev hev
      cases hev
    · intro r patch err w1 _ _ _ _ _ ev hev
      simp only [List.mem_singleton] at hev
      subst hev
      simp [Event.kind]
    · intro r patch resource err w1 w2 evs2 _ _ _ _ _ hc
      rw [checkPrecondition_of_etag_disabled s r w1 resource hetag] at hc
      simp at hc
    · intro r patch resource ref err w1 w2 w3 w4 evs2 evs4 _ _ _ _ _ hc _ hf ev hev
      rw [checkPrecondition_of_etag_disabled s r w1 resource hetag] at hc
      simp only [Prod.mk.injEq, true_and] at hc
      obtain ⟨-, rfl⟩ := hc
      simp only [List.cons_append, List.nil_append, List.mem_cons] at hev
      rcases hev with rfl | rfl | hev
      · simp [Event.kind]
      · simp [Event.kind]
      · rw [(runFilters_events false resource ref s.preFilters 0 w3 _ w4 evs4 hf).1 ev hev]
        decide
    · intro r patch resource ref err w1 w2 w3 w4 w5 evs2 evs4 evs5 _ _ _ _ _ hc _ hf ho ev hev
      rw [checkPrecondition_of_etag_disabled s r w1 resource hetag] at hc
      simp only [Prod.mk.injEq, true_and] at hc
      obtain ⟨-, rfl⟩ := hc
      simp only [List.cons_append, List.nil_append, List.mem_cons, List.mem_append] at hev
      rcases hev with rfl | rfl | hev | hev
      · simp [Event.kind]
      · simp [Event.kind]
      · rw [(runFilters_events false resource ref s.preFilters 0 w3 _ w4 evs4 hf).1 ev hev]
        decide
      · have := (applyOperations_events lib resource patch.Operations w4 _ w5 evs5 ho).1 ev hev
        intro hk
        rw [hk] at this
        cases this
    · intro r patch resource ref w1 w2 w3 w4 w5 evs2 evs4 evs5 _ _ _ _ _ hc _ hf ho
      rw [checkPrecondition_of_etag_disabled s r w1 resource hetag] at hc
      simp only [Prod.mk.injEq, true_and] at hc
      obtain ⟨-, rfl⟩ := hc
      have hbase : ∀ ev ∈ (.Get r.ResourceID none :: [] ++ .Clone resource ref :: evs4 ++ evs5 :
          List (Event R V)), ev.kind ≠ .matchCriteria := by
        intro ev hev
        simp only [List.cons_append, List.nil_append, List.mem_cons, List.mem_append] at hev
        rcases hev with rfl | rfl | hev | hev
        · simp [Event.kind]
        · simp [Event.kind]
        · rw [(runFilters_events false resource ref s.preFilters 0 w3 _ w4 evs4 hf).1 ev hev]
          decide
        · have := (applyOperations_events lib resource patch.Operations w4 _ w5 evs5 ho).1 ev
            hev
          intro hk
          rw [hk] at this
          cases this
      apply postFiltersAndCommit_cases lib s resource ref w5 _
        (fun run => ∀ ev ∈ run.trace, ev.kind ≠ .matchCriteria)
      · intro err w6 evs6 hpf ev hev
        rcases List.mem_append.mp hev with hev | hev
        · exact hbase ev hev
        · rw [(runFilters_events true resource ref s.postFilters 0 w5 _ w6 evs6 hpf).1 ev hev]
          decide
      · intro w6 evs6 hpf _ ev hev
        rcases List.mem_append.mp hev with hev | hev
        · exact hbase ev hev
        · rw [(runFilters_events true resource ref s.postFilters 0 w5 _ w6 evs6 hpf).1 ev hev]
          decide
      · intro w6 evs6 result w7 hpf _ _ ev hev
        rcases List.mem_append.mp hev with hev | hev
        · rcases List.mem_append.mp hev with hev | hev
          · exact hbase ev hev
          · rw [(runFilters_events true resource ref s.postFilters 0 w5 _ w6 evs6 hpf).1 ev hev]
            decide
        · simp only [List.mem_singleton] at hev
          subst hev
          simp [Event.kind]

/-- Witness of C14 on the instance: with ETag support off, a request asking for the
stale version `v0` is treated as the request without match criteria. -/
theorem Do_ignores_MatchCriteria_witness :
    Do toyLib toyServiceNoETag toyWorld (some (toyRequestIfMatch [1] "v0")) =
      Do toyLib toyServiceNoETag toyWorld (some (toyRequest [1])) :=
  (Do_ignores_MatchCriteria toyLib toyServiceNoETag toyWorld (toyRequestIfMatch [1] "v0")
    (toyRequest [1]) rfl rfl rfl).1

/-! ### Exact invocations of the successful phases -/

/-- A filter loop that succeeds has invoked every filter of its list once, in list
order, successfully. -/
theorem runFilters_success_events {W R V : Type} (post : Bool) (resource ref : R)
    (fs : List (ByResource W R)) (index : Nat) (w w1 : W) (evs : List (Event R V))
    (h : runFilters post resource ref index fs w = (none, w1, evs)) :
    evs = (List.range' index fs.length).map (fun i => .FilterRef post i resource ref none) := by
  induction fs generalizing index w w1 evs with
  | nil =>
    simp only [runFilters, Prod.mk.injEq] at h
    obtain ⟨-, -, rfl⟩ := h
    rfl
  | cons f rest ih =>
    simp only [runFilters] at h
    rcases hf : f w resource ref with ⟨ferr, w2⟩
    rw [hf] at h
    cases ferr with
    | some e => simp at h
    | none =>
      rcases hrest : (runFilters post resource ref (index + 1) rest w2 :
        Option Error × W × List (Event R V)) with ⟨err2, w3, evs3⟩
      simp only [hrest, Prod.mk.injEq] at h
      obtain ⟨rfl, -, rfl⟩ := h
      rw [ih (index + 1) w2 w3 evs3 hrest]
      simp [List.range'_succ]

/-- A filter loop started at position 0 that succeeds has made the invocations the
specification expects. -/
theorem runFilters_eq_filterEvents {W R V : Type} (post : Bool) (resource ref : R)
    (fs : List (ByResource W R)) (w w1 : W) (evs : List (Event R V))
    (h : runFilters post resource ref 0 fs w = (none, w1, evs)) :
    evs = filterEvents post resource ref fs.length := by
  rw [runFilters_success_events post resource ref fs 0 w w1 evs h, filterEvents,
    List.range_eq_range']

/-- Deserializer invocations are no step and no mutator. -/
theorem deserialize_events_steps {R V : Type} (evs : List (Event R V))
    (h : ∀ ev ∈ evs, ev.kind = .deserialize) :
    evs.filterMap Event.step = [] ∧
    evs.countP (fun ev => decide (ev.kind = .mutator)) = 0 := by
  induction evs with
  | nil => simp
  | cons ev rest ih =>
    have hk := h ev (List.mem_cons_self ev rest)
    have hrest := ih (fun e he => h e (List.mem_cons_of_mem ev he))
    constructor
    · have hstep : ev.step = none := by
        cases ev <;> first | rfl | simp [Event.kind] at hk
      rw [List.filterMap_cons, hstep]
      exact hrest.1
    · rw [List.countP_cons, hrest.2]
      simp [hk]

/-- An operation of a valid kind that succeeds has made the steps the specification
expects, with exactly one mutator invocation. -/
theorem applyOperation_success_steps {W R A P V : Type} (lib : Library W R A P V)
    (resource : R) (op : PatchOperation) (w w1 : W) (evs : List (Event R V))
    (hkind : op.Op = "add" ∨ op.Op = "replace" ∨ op.Op = "remove")
    (h : applyOperation lib resource op w = (none, w1, evs)) :
    evs.filterMap Event.step = expectedSteps op ∧
    evs.countP (fun ev => decide (ev.kind = .mutator)) = 1 := by
  have h1 : ("add" : String) ≠ "remove" := by decide
  have h2 : ("replace" : String) ≠ "remove" := by decide
  have h3 : ("replace" : String) ≠ "add" := by decide
  rcases hpv : ParseValue lib w resource op with ⟨res, pevs⟩
  have hp := deserialize_events_steps pevs (ParseValue_events lib w resource op res pevs hpv).1
  unfold applyOperation at h
  rcases hkind with hk | hk | hk
  · rw [if_pos hk, hpv] at h
    cases res with
    | error e => simp at h
    | ok v =>
      simp only [Prod.mk.injEq] at h
      obtain ⟨herr, -, rfl⟩ := h
      constructor
      · rw [List.filterMap_append, hp.1]
        simp [Event.step, expectedSteps, hk, h1]
      · rw [List.countP_append, hp.2]
        simp [List.countP_cons, Event.kind]
  · rw [if_neg (by rw [hk]; exact h3), if_pos hk, hpv] at h
    cases res with
    | error e => simp at h
    | ok v =>
      simp only [Prod.mk.injEq] at h
      obtain ⟨herr, -, rfl⟩ := h
      constructor
      · rw [List.filterMap_append, hp.1]
        simp [Event.step, expectedSteps, hk, h2]
      · rw [List.countP_append, hp.2]
        simp [List.countP_cons, Event.kind]
  · rw [if_neg (by rw [hk]; exact h1.symm), if_neg (by rw [hk]; exact h2.symm), if_pos hk] at h
    simp only [Prod.mk.injEq] at h
    obtain ⟨herr, -, rfl⟩ := h
    constructor
    · simp [Event.step, expectedSteps, hk]
    · simp [List.countP_cons, Event.kind]

/-- An operation loop over operations of valid kinds that succeeds has made the steps
the specification expects, in payload order, with one mutator invocation per operation. -/
theorem applyOperations_success_steps {W R A P V : Type} (lib : Library W R A P V)
    (resource : R) (ops : List PatchOperation) (w w1 : W) (evs : List (Event R V))
    (hkind : ∀ op ∈ ops, op.Op = "add" ∨ op.Op = "replace" ∨ op.Op = "remove")
    (h : applyOperations lib resource ops w = (none, w1, evs)) :
    evs.filterMap Event.step = expectedStepsOf ops ∧
    evs.countP (fun ev => decide (ev.kind = .mutator)) = ops.length := by
  induction ops generalizing w w1 evs with
  | nil =>
    simp only [applyOperations, Prod.mk.injEq] at h
    obtain ⟨-, -, rfl⟩ := h
    simp [expectedStepsOf]
  | cons op rest ih =>
    simp only [applyOperations] at h
    rcases hop : applyOperation lib resource op w with ⟨err1, w2, evs1⟩
    rw [hop] at h
    cases err1 with
    | some e => simp at h
    | none =>
      rcases hrest : applyOperations lib resource rest w2 with ⟨err2, w3, evs2⟩
      simp only [hrest, Prod.mk.injEq] at h
      obtain ⟨rfl, -, rfl⟩ := h
      have h1 := applyOperation_success_steps lib resource op w w2 evs1
        (hkind op (List.mem_cons_self op rest)) hop
      have h2 := ih w2 w3 evs2 (fun o ho => hkind o (List.mem_cons_of_mem op ho)) hrest
      constructor
      · rw [List.filterMap_append, h1.1, h2.1, expectedStepsOf]
      · rw [List.countP_append, h1.2, h2.2, List.length_cons]
        omega

/-- A payload that `Validate` accepts has only operations of the three kinds. -/
theorem Validate_kinds (p : PatchPayload) (h : Validate p = .returned none) :
    ∀ op ∈ p.Operations, op.Op = "add" ∨ op.Op = "replace" ∨ op.Op = "remove" := by
  have hops : validateOperations p.Operations = none := by
    unfold Validate at h
    split at h
    · cases h
    · simp at h
    · simpa using h
  intro op hop
  exact ((validateOperation_eq_none_iff op).mp
    ((validateOperations_eq_none_iff p.Operations).mp hops op hop)).1

/-- The invocations the specification expects of a filter phase are filter events of
that phase. -/
theorem filterEvents_kind {R V : Type} (post : Bool) (resource ref : R) (n : Nat) :
    ∀ ev ∈ (filterEvents post resource ref n : List (Event R V)),
      ev.kind = .filter ∧ ev.phase = (if post then 5 else 3) ∧ ev.uses resource ref := by
  intro ev hev
  simp only [filterEvents, List.mem_map] at hev
  obtain ⟨i, -, rfl⟩ := hev
  cases post <;> simp [Event.kind, Event.phase, Event.uses]

/-- Every successful run of `Do` has the trace the specification orders. -/
theorem Do_success_trace {W R A P V : Type} (lib : Library W R A P V) (s : patchService W R)
    (w : W) (req : Option (PatchRequest W R)) (resp : PatchResponse R)
    (h : (Do lib s w req).outcome = .returned (some resp, none)) :
    SuccessTrace lib s req resp (Do lib s w req).trace := by
  have key : ∀ resp1 : PatchResponse R,
      (Do lib s w req).outcome = .returned (some resp1, none) →
      SuccessTrace lib s req resp1 (Do lib s w req).trace := by
    apply Do_cases lib s w req (fun run => ∀ resp1 : PatchResponse R,
      run.outcome = .returned (some resp1, none) → SuccessTrace lib s req resp1 run.trace)
    · rintro out (⟨e, rfl⟩ | ⟨m, rfl⟩) resp1 h1 <;> simp at h1
    · intro r patch err w1 _ _ _ _ _ resp1 h1
      simp at h1
    · intro r patch resource err w1 w2 evs2 _ _ _ _ _ _ resp1 h1
      simp at h1
    · intro r patch resource ref err w1 w2 w3 w4 evs2 evs4 _ _ _ _ _ _ _ _ resp1 h1
      simp at h1
    · intro r patch resource ref err w1 w2 w3 w4 w5 evs2 evs4 evs5 _ _ _ _ _ _ _ _ _ resp1 h1
      simp at h1
    · intro r patch resource ref w1 w2 w3 w4 w5 evs2 evs4 evs5 hreq _ hp hv _ hc _ hf ho
      have hevs2 := checkPrecondition_events s r w1 resource none w2 evs2 hc
      have hevs4 := runFilters_eq_filterEvents false resource ref s.preFilters w3 w4 evs4 hf
      subst hevs4
      apply postFiltersAndCommit_cases lib s resource ref w5 _
        (fun run => ∀ resp1 : PatchResponse R,
          run.outcome = .returned (some resp1, none) → SuccessTrace lib s req resp1 run.trace)
      · intro err w6 evs6 _ resp1 h1
        simp at h1
      · intro w6 evs6 hpf _ resp1 h1
        have hevs6 := runFilters_eq_filterEvents true resource ref s.postFilters w5 w6 evs6 hpf
        subst hevs6
        simp only [Completion.returned.injEq, Prod.mk.injEq, Option.some.injEq, and_true] at h1
        subst h1
        exact ⟨r, patch, resource, ref, w4, w5, evs2, evs5, [], hreq, hp, hv, ho,
          fun ev hev => (hevs2 ev hev).1, Or.inl ⟨rfl, rfl, rfl⟩, by simp⟩
      · intro w6 evs6 result w7 hpf _ _ resp1 h1
        have hevs6 := runFilters_eq_filterEvents true resource ref s.postFilters w5 w6 evs6 hpf
        subst hevs6
        cases result with
        | some e => simp at h1
        | none =>
          simp only [Completion.returned.injEq, Prod.mk.injEq, Option.some.injEq,
            and_true] at h1
          subst h1
          exact ⟨r, patch, resource, ref, w4, w5, evs2, evs5, [.DbReplace ref resource none],
            hreq, hp, hv, ho, fun ev hev => (hevs2 ev hev).1, Or.inr ⟨rfl, rfl, rfl⟩, rfl⟩
  exact key resp h

/-! ### Order of the invocations -/

/-- Events of the operation loop belong to phase 4, and are neither match-criteria
nor Clone events. -/
theorem phase_of_isOperation {R V : Type} (ev : Event R V) (h : ev.kind.isOperation = true) :
    ev.phase = 4 ∧ ev.kind ≠ .matchCriteria ∧ ev.kind ≠ .clone := by
  cases ev <;> simp [Event.kind, EventKind.isOperation] at h <;>
    simp [Event.phase, Event.kind]

/-- Match-criteria events belong to phase 1. -/
theorem phase_of_matchCriteria {R V : Type} (ev : Event R V) (h : ev.kind = .matchCriteria) :
    ev.phase = 1 := by
  cases ev <;> first | rfl | simp [Event.kind] at h

/-- A list ordered by phase and bounded by `k1`, followed by events of one phase
`k2` not below `k1`, is ordered by phase and bounded by `k2`. -/
theorem phase_ordered_append {R V : Type} (l1 l2 : List (Event R V)) (k1 k2 : Nat)
    (h1 : l1.Pairwise (fun a b => a.phase ≤ b.phase) ∧ ∀ a ∈ l1, a.phase ≤ k1)
    (h2 : ∀ b ∈ l2, b.phase = k2) (hk : k1 ≤ k2) :
    (l1 ++ l2).Pairwise (fun a b => a.phase ≤ b.phase) ∧ ∀ a ∈ l1 ++ l2, a.phase ≤ k2 := by
  constructor
  · rw [List.pairwise_append]
    refine ⟨h1.1, ?_, ?_⟩
    · apply List.pairwise_of_forall_mem_list
      intro a ha b hb
      rw [h2 a ha, h2 b hb]
    · intro a ha b hb
      rw [h2 b hb]
      exact Nat.le_trans (h1.2 a ha) hk
  · intro a ha
    rcases List.mem_append.mp ha with ha | ha
    · exact Nat.le_trans (h1.2 a ha) hk
    · rw [h2 a ha]

/-- The trace the specification orders for a successful run is ordered by phase. -/
theorem success_trace_ordered {R V : Type} (id : String) (resource ref : R)
    (evs2 evs5 commit : List (Event R V)) (n m : Nat)
    (h2 : ∀ ev ∈ evs2, ev.kind = .matchCriteria)
    (h5 : ∀ ev ∈ evs5, ev.kind.isOperation = true)
    (hc : commit = [] ∨ commit = [.DbReplace ref resource none]) :
    List.Pairwise (fun a b : Event R V => a.phase ≤ b.phase)
      ((Event.Get id none :: evs2 ++ Event.Clone resource ref ::
        filterEvents false resource ref n ++ evs5 ++ filterEvents true resource ref m) ++
        commit) := by
  have s0 : List.Pairwise (fun a b : Event R V => a.phase ≤ b.phase) [Event.Get id none] ∧
      ∀ a ∈ ([Event.Get id none] : List (Event R V)), a.phase ≤ 0 := by
    constructor
    · exact List.pairwise_singleton _ _
    · intro a ha
      simp only [List.mem_singleton] at ha
      subst ha
      exact Nat.le_refl 0
  have s1 := phase_ordered_append _ evs2 0 1 s0
    (fun b hb => phase_of_matchCriteria b (h2 b hb)) (by decide)
  have s2 := phase_ordered_append _ [Event.Clone resource ref] 1 2 s1
    (fun b hb => by simp only [List.mem_singleton] at hb; subst hb; rfl) (by decide)
  have s3 := phase_ordered_append _ (filterEvents false resource ref n) 2 3 s2
    (fun b hb => by simpa using (filterEvents_kind false resource ref n b hb).2.1) (by decide)
  have s4 := phase_ordered_append _ evs5 3 4 s3
    (fun b hb => (phase_of_isOperation b (h5 b hb)).1) (by decide)
  have s5 := phase_ordered_append _ (filterEvents true resource ref m) 4 5 s4
    (fun b hb => by simpa using (filterEvents_kind true resource ref m b hb).2.1) (by decide)
  have s6 := phase_ordered_append _ commit 5 6 s5
    (fun b hb => by
      rcases hc with hc | hc
      · rw [hc] at hb; cases hb
      · rw [hc] at hb
        simp only [List.mem_singleton] at hb
        subst hb
        rfl) (by decide)
  have heq : ((Event.Get id none :: evs2 ++ Event.Clone resource ref ::
      filterEvents false resource ref n ++ evs5 ++ filterEvents true resource ref m) ++
      commit : List (Event R V)) =
      [Event.Get id none] ++ evs2 ++ [Event.Clone resource ref] ++
        filterEvents false resource ref n ++ evs5 ++ filterEvents true resource ref m ++
        commit := by
    simp
  rw [heq]
  exact s6.1

/-- Without the match-criteria and Clone events, the trace the specification orders
for a successful run is the Get, the pre-filters, the operation loop, the
post-filters and the commit. -/
theorem success_trace_collaborators {R V : Type} (id : String) (resource ref : R)
    (evs2 evs5 commit : List (Event R V)) (n m : Nat)
    (h2 : ∀ ev ∈ evs2, ev.kind = .matchCriteria)
    (h5 : ∀ ev ∈ evs5, ev.kind.isOperation = true)
    (hc : commit = [] ∨ commit = [.DbReplace ref resource none]) :
    List.filter (fun ev : Event R V => decide (ev.kind ≠ .matchCriteria ∧ ev.kind ≠ .clone))
      ((Event.Get id none :: evs2 ++ Event.Clone resource ref ::
        filterEvents false resource ref n ++ evs5 ++ filterEvents true resource ref m) ++
        commit) =
      Event.Get id none :: filterEvents false resource ref n ++ evs5 ++
        filterEvents true resource ref m ++ commit := by
  have f2 : evs2.filter (fun ev => decide (ev.kind ≠ .matchCriteria ∧ ev.kind ≠ .clone)) = [] := by
    rw [List.filter_eq_nil_iff]
    intro a ha
    simp [h2 a ha]
  have f3 : ∀ (post : Bool) (k : Nat), (filterEvents post resource ref k : List (Event R V)).filter
      (fun ev => decide (ev.kind ≠ .matchCriteria ∧ ev.kind ≠ .clone)) =
        filterEvents post resource ref k := by
    intro post k
    rw [List.filter_eq_self]
    intro a ha
    simp [(filterEvents_kind post resource ref k a ha).1]
  have f5 : evs5.filter (fun ev => decide (ev.kind ≠ .matchCriteria ∧ ev.kind ≠ .clone)) =
      evs5 := by
    rw [List.filter_eq_self]
    intro a ha
    have := phase_of_isOperation a (h5 a ha)
    simp [this.2.1, this.2.2]
  have f6 : commit.filter (fun ev => decide (ev.kind ≠ .matchCriteria ∧ ev.kind ≠ .clone)) =
      commit := by
    rcases hc with hc | hc <;> subst hc <;> simp [Event.kind]
  simp only [List.cons_append, List.filter_append, List.filter_cons, f2, f3, f5, f6]
  simp [Event.kind]

/-- C12: in every successful execution of `Do` the invocations are, in this order:
storage Get once; the match-criteria evaluation, if any, and the Clone; every
registered pre-filter once, in registration order; for each operation in payload
order its value parse (add, replace) and its mutator; every registered post-filter
once, in registration order; storage Replace at most once. Leaving the match criteria
and the Clone aside the trace is exactly that sequence, and the trace is ordered by
phase: no pre-filter after an operation, no post-filter before one. -/
theorem Do_invocation_order {W R A P V : Type} (lib : Library W R A P V)
    (s : patchService W R) (w : W) (req : Option (PatchRequest W R)) (resp : PatchResponse R)
    (h : (Do lib s w req).outcome = .returned (some resp, none)) :
    ∃ (r : PatchRequest W R) (patch : PatchPayload) (resource ref : R)
      (evs2 evs5 commit : List (Event R V)),
      req = some r ∧ parseRequest lib req = .ok patch ∧
      (Do lib s w req).trace =
        (.Get r.ResourceID none :: evs2 ++
          .Clone resource ref :: filterEvents false resource ref s.preFilters.length ++
          evs5 ++ filterEvents true resource ref s.postFilters.length) ++ commit ∧
      (∀ ev ∈ evs2, ev.kind = .matchCriteria) ∧
      (∀ ev ∈ evs5, ev.kind.isOperation = true) ∧
      evs5.filterMap Event.step = expectedStepsOf patch.Operations ∧
      (commit = [] ∨ commit = [.DbReplace ref resource none]) ∧
      (Do lib s w req).trace.filter
          (fun ev => decide (ev.kind ≠ .matchCriteria ∧ ev.kind ≠ .clone)) =
        .Get r.ResourceID none :: filterEvents false resource ref s.preFilters.length ++
          evs5 ++ filterEvents true resource ref s.postFilters.length ++ commit ∧
      (Do lib s w req).trace.Pairwise (fun a b => a.phase ≤ b.phase) := by
  obtain ⟨r, patch, resource, ref, w4, w5, evs2, evs5, commit, hreq, hp, hv, ho, h2, hcommit,
    ht⟩ := Do_success_trace lib s w req resp h
  have h5 := (applyOperations_events lib resource patch.Operations w4 none w5 evs5 ho).1
  have hsteps := (applyOperations_success_steps lib resource patch.Operations w4 w5 evs5
    (Validate_kinds patch hv) ho).1
  have hc : commit = [] ∨ commit = [.DbReplace ref resource none] := by
    rcases hcommit with hc | hc
    · exact Or.inl hc.1
    · exact Or.inr hc.1
  refine ⟨r, patch, resource, ref, evs2, evs5, commit, hreq, hp, ht, h2, h5, hsteps, hc, ?_, ?_⟩
  · rw [ht]
    exact success_trace_collaborators r.ResourceID resource ref evs2 evs5 commit _ _ h2 h5 hc
  · rw [ht]
    exact success_trace_ordered r.ResourceID resource ref evs2 evs5 commit _ _ h2 h5 hc

/-! ### Mutators of a successful run -/

/-- Match-criteria and filter events are no step and no mutator. -/
theorem no_steps_of_kinds {R V : Type} (evs : List (Event R V))
    (h : ∀ ev ∈ evs, ev.kind = .matchCriteria ∨ ev.kind = .filter) :
    evs.filterMap Event.step = [] ∧
    evs.countP (fun ev => decide (ev.kind = .mutator)) = 0 := by
  induction evs with
  | nil => simp
  | cons ev rest ih =>
    have hk := h ev (List.mem_cons_self ev rest)
    have hrest := ih (fun e he => h e (List.mem_cons_of_mem ev he))
    constructor
    · have hstep : ev.step = none := by
        cases ev <;> first | rfl | simp [Event.kind] at hk
      rw [List.filterMap_cons, hstep]
      exact hrest.1
    · rw [List.countP_cons, hrest.2]
      rcases hk with hk | hk <;> simp [hk]

/-- In the trace the specification orders for a successful run, the steps and the
mutator invocations are those of the operation loop. -/
theorem success_trace_steps {R V : Type} (id : String) (resource ref : R)
    (evs2 evs5 commit : List (Event R V)) (n m : Nat)
    (h2 : ∀ ev ∈ evs2, ev.kind = .matchCriteria)
    (hc : commit = [] ∨ commit = [.DbReplace ref resource none]) :
    List.filterMap Event.step
      ((Event.Get id none :: evs2 ++ Event.Clone resource ref ::
        filterEvents false resource ref n ++ evs5 ++ filterEvents true resource ref m) ++
        commit) = evs5.filterMap Event.step ∧
    List.countP (fun ev : Event R V => decide (ev.kind = .mutator))
      ((Event.Get id none :: evs2 ++ Event.Clone resource ref ::
        filterEvents false resource ref n ++ evs5 ++ filterEvents true resource ref m) ++
        commit) = evs5.countP (fun ev => decide (ev.kind = .mutator)) := by
  have e2 := no_steps_of_kinds evs2 (fun ev hev => Or.inl (h2 ev hev))
  have e3 := no_steps_of_kinds (filterEvents false resource ref n : List (Event R V))
    (fun ev hev => Or.inr (filterEvents_kind false resource ref n ev hev).1)
  have e6 := no_steps_of_kinds (filterEvents true resource ref m : List (Event R V))
    (fun ev hev => Or.inr (filterEvents_kind true resource ref m ev hev).1)
  constructor
  · rcases hc with hc | hc <;> subst hc <;>
      simp [List.filterMap_append, List.filterMap_cons, Event.step, e2.1, e3.1, e6.1]
  · have kG : decide ((Event.Get id none : Event R V).kind = .mutator) = false := by
      simp [Event.kind]
    have kC : decide ((Event.Clone resource ref : Event R V).kind = .mutator) = false := by
      simp [Event.kind]
    have kD : decide ((Event.DbReplace ref resource none : Event R V).kind = .mutator) =
        false := by
      simp [Event.kind]
    rcases hc with hc | hc <;> subst hc <;>
      simp only [List.cons_append, List.countP_append, List.countP_cons, List.countP_nil,
        e2.2, e3.2, e6.2, kG, kC, kD] <;> simp

/-- Among the steps the specification expects of operations of valid kinds, the
mutator steps are one per operation, of its kind and on its path, in payload order. -/
theorem expectedStepsOf_mutators (ops : List PatchOperation)
    (hkind : ∀ op ∈ ops, op.Op = "add" ∨ op.Op = "replace" ∨ op.Op = "remove") :
    (expectedStepsOf ops).filter OpStep.isMutate = ops.map (fun op => .mutate op.Op op.Path) := by
  induction ops with
  | nil => rfl
  | cons op rest ih =>
    have hrest := ih (fun o ho => hkind o (List.mem_cons_of_mem op ho))
    rw [expectedStepsOf, List.filter_append, hrest, List.map_cons]
    by_cases hr : op.Op = "remove"
    · simp [expectedSteps, hr, OpStep.isMutate]
    · simp [expectedSteps, hr, OpStep.isMutate]

/-- C19: a payload on which `Validate` succeeds has only operations of kind add,
replace or remove; an operation of such a kind that is applied without error has
invoked exactly one mutator; and in a successful `Do` the mutator invocations are one
per operation of the payload, of its kind and on its path, in payload order, so their
number is the number of operations. -/
theorem Validate_exhaustive_dispatch {W R A P V : Type} (lib : Library W R A P V)
    (s : patchService W R) (w : W) (req : Option (PatchRequest W R)) (patch : PatchPayload)
    (hparse : parseRequest lib req = .ok patch) :
    (Validate patch = .returned none →
      ∀ op ∈ patch.Operations, op.Op = "add" ∨ op.Op = "replace" ∨ op.Op = "remove") ∧
    (∀ (op : PatchOperation) (resource : R) (w0 w1 : W) (evs : List (Event R V)),
      (op.Op = "add" ∨ op.Op = "replace" ∨ op.Op = "remove") →
      applyOperation lib resource op w0 = (none, w1, evs) →
      evs.countP (fun ev => decide (ev.kind = .mutator)) = 1) ∧
    (∀ resp, (Do lib s w req).outcome = .returned (some resp, none) →
      (Do lib s w req).trace.countP (fun ev => decide (ev.kind = .mutator)) =
        patch.Operations.length ∧
      ((Do lib s w req).trace.filterMap Event.step).filter OpStep.isMutate =
        patch.Operations.map (fun op => .mutate op.Op op.Path)) := by
  refine ⟨Validate_kinds patch, ?_, ?_⟩
  · intro op resource w0 w1 evs hk hop
    exact (applyOperation_success_steps lib resource op w0 w1 evs hk hop).2
  · intro resp h
    obtain ⟨r, patch1, resource, ref, w4, w5, evs2, evs5, commit, hreq, hp, hv, ho, h2, hcommit,
      ht⟩ := Do_success_trace lib s w req resp h
    rw [hparse] at hp
    simp only [Except.ok.injEq] at hp
    subst hp
    have hkinds := Validate_kinds patch hv
    have hsteps := applyOperations_success_steps lib resource patch.Operations w4 w5 evs5
      hkinds ho
    have hc : commit = [] ∨ commit = [.DbReplace ref resource none] := by
      rcases hcommit with hc | hc
      · exact Or.inl hc.1
      · exact Or.inr hc.1
    have htr := success_trace_steps r.ResourceID resource ref evs2 evs5 commit
      s.preFilters.length s.postFilters.length h2 hc
    rw [ht, htr.1, htr.2, hsteps.1, hsteps.2]
    exact ⟨rfl, expectedStepsOf_mutators patch.Operations hkinds⟩

/-- Witness of C12 on the instance: the successful run of the test file. -/
theorem Do_invocation_order_witness :
    ∃ (r : PatchRequest ToyWorld Nat) (patch : PatchPayload) (resource ref : Nat)
      (evs2 evs5 commit : List (Event Nat String)),
      some (toyRequest [1]) = some r ∧
      parseRequest toyLib (some (toyRequest [1])) = .ok patch ∧
      (Do toyLib toyService toyWorld (some (toyRequest [1]))).trace =
        (.Get r.ResourceID none :: evs2 ++
          .Clone resource ref :: filterEvents false resource ref toyService.preFilters.length ++
          evs5 ++ filterEvents true resource ref toyService.postFilters.length) ++ commit ∧
      (∀ ev ∈ evs2, ev.kind = .matchCriteria) ∧
      (∀ ev ∈ evs5, ev.kind.isOperation = true) ∧
      evs5.filterMap Event.step = expectedStepsOf patch.Operations ∧
      (commit = [] ∨ commit = [.DbReplace ref resource none]) ∧
      (Do toyLib toyService toyWorld (some (toyRequest [1]))).trace.filter
          (fun ev => decide (ev.kind ≠ .matchCriteria ∧ ev.kind ≠ .clone)) =
        .Get r.ResourceID none ::
          filterEvents false resource ref toyService.preFilters.length ++
          evs5 ++ filterEvents true resource ref toyService.postFilters.length ++ commit ∧
      (Do toyLib toyService toyWorld (some (toyRequest [1]))).trace.Pairwise
        (fun a b => a.phase ≤ b.phase) :=
  Do_invocation_order toyLib toyService toyWorld (some (toyRequest [1])) ⟨true, 1, "v1"⟩
    (by rfl)

/-- Witness of C19 on the instance: three operations, three mutator invocations. -/
theorem Validate_exhaustive_dispatch_witness :
    (Do toyLib toyService toyWorld (some (toyRequest [1]))).trace.countP
        (fun ev => decide (ev.kind = .mutator)) = 3 ∧
    ((Do toyLib toyService toyWorld (some (toyRequest [1]))).trace.filterMap
        Event.step).filter OpStep.isMutate =
      [.mutate "add" "userName", .mutate "replace" "emails[primary eq true].type",
        .mutate "remove" "timezone"] :=
  (Validate_exhaustive_dispatch toyLib toyService toyWorld (some (toyRequest [1]))
    ⟨[patchOpURN], [⟨"add", "userName", [102, 111, 111, 98, 97, 114]⟩,
        ⟨"replace", "emails[primary eq true].type", [119, 111, 114, 107]⟩,
        ⟨"remove", "timezone", []⟩]⟩ (by rfl)).2.2 ⟨true, 1, "v1"⟩ (by rfl)

/-! ### The pre-image -/

/-- Every event of a filter loop is an invocation on `(resource, ref)`. -/
theorem runFilters_uses {W R V : Type} (post : Bool) (resource ref : R)
    (fs : List (ByResource W R)) (index : Nat) (w : W) (err : Option Error) (w1 : W)
    (evs : List (Event R V)) (h : runFilters post resource ref index fs w = (err, w1, evs)) :
    ∀ ev ∈ evs, ev.uses resource ref ∧ ev.target = none := by
  induction fs generalizing index w err w1 evs with
  | nil =>
    simp only [runFilters, Prod.mk.injEq] at h
    obtain ⟨-, -, rfl⟩ := h
    simp
  | cons f rest ih =>
    simp only [runFilters] at h
    rcases hf : f w resource ref with ⟨ferr, w2⟩
    rw [hf] at h
    cases ferr with
    | some e =>
      simp only [Prod.mk.injEq] at h
      obtain ⟨-, -, rfl⟩ := h
      intro ev hev
      simp only [List.mem_singleton] at hev
      subst hev
      simp [Event.uses, Event.target]
    | none =>
      rcases hrest : (runFilters post resource ref (index + 1) rest w2 :
        Option Error × W × List (Event R V)) with ⟨err2, w3, evs3⟩
      simp only [hrest, Prod.mk.injEq] at h
      obtain ⟨-, -, rfl⟩ := h
      intro ev hev
      simp only [List.mem_cons] at hev
      rcases hev with rfl | hev
      · simp [Event.uses, Event.target]
      · exact ih (index + 1) w2 err2 w3 evs3 hrest ev hev

/-- Every event of one operation is an invocation on the live resource: the value
parse and the mutator are applied to `resource`. -/
theorem applyOperation_uses {W R A P V : Type} (lib : Library W R A P V) (resource ref : R)
    (patchOp : PatchOperation) (w : W) (err : Option Error) (w1 : W) (evs : List (Event R V))
    (h : applyOperation lib resource patchOp w = (err, w1, evs)) :
    ∀ ev ∈ evs, ev.uses resource ref ∧ (ev.target = none ∨ ev.target = some resource) := by
  have hdes : ∀ (res : Except Error V) (pevs : List (Event R V)),
      ParseValue lib w resource patchOp = (res, pevs) →
      ∀ ev ∈ pevs, ev.uses resource ref ∧ (ev.target = none ∨ ev.target = some resource) := by
    intro res pevs hpv ev hev
    have hk := (ParseValue_events lib w resource patchOp res pevs hpv).1 ev hev
    cases ev <;> simp [Event.kind] at hk
    simp [Event.uses, Event.target]
  rcases hpv : ParseValue lib w resource patchOp with ⟨res, pevs⟩
  have hp := hdes res pevs hpv
  unfold applyOperation at h
  split_ifs at h
  · rw [hpv] at h
    cases res with
    | error e0 =>
      simp only [Prod.mk.injEq] at h
      obtain ⟨-, -, rfl⟩ := h
      intro ev hev
      rcases List.mem_append.mp hev with hev | hev
      · exact hp ev hev
      · simp only [List.mem_singleton] at hev
        subst hev
        simp [Event.uses, Event.target]
    | ok v =>
      simp only [Prod.mk.injEq] at h
      obtain ⟨-, -, rfl⟩ := h
      intro ev hev
      rcases List.mem_append.mp hev with hev | hev
      · exact hp ev hev
      · simp only [List.mem_cons, List.mem_singleton, List.mem_nil_iff, or_false] at hev
        rcases hev with rfl | rfl <;> simp [Event.uses, Event.target]
  · rw [hpv] at h
    cases res with
    | error e0 =>
      simp only [Prod.mk.injEq] at h
      obtain ⟨-, -, rfl⟩ := h
      intro ev hev
      rcases List.mem_append.mp hev with hev | hev
      · exact hp ev hev
      · simp only [List.mem_singleton] at hev
        subst hev
        simp [Event.uses, Event.target]
    | ok v =>
      simp only [Prod.mk.injEq] at h
      obtain ⟨-, -, rfl⟩ := h
      intro ev hev
      rcases List.mem_append.mp hev with hev | hev
      · exact hp ev hev
      · simp only [List.mem_cons, List.mem_singleton, List.mem_nil_iff, or_false] at hev
        rcases hev with rfl | rfl <;> simp [Event.uses, Event.target]
  · simp only [Prod.mk.injEq] at h
    obtain ⟨-, -, rfl⟩ := h
    intro ev hev
    simp only [List.mem_singleton] at hev
    subst hev
    simp [Event.uses, Event.target]
  · simp only [Prod.mk.injEq] at h
    obtain ⟨-, -, rfl⟩ := h
    simp

/-- Every event of the operation loop is an invocation on the live resource. -/
theorem applyOperations_uses {W R A P V : Type} (lib : Library W R A P V) (resource ref : R)
    (ops : List PatchOperation) (w : W) (err : Option Error) (w1 : W) (evs : List (Event R V))
    (h : applyOperations lib resource ops w = (err, w1, evs)) :
    ∀ ev ∈ evs, ev.uses resource ref ∧ (ev.target = none ∨ ev.target = some resource) := by
  induction ops generalizing w err w1 evs with
  | nil =>
    simp only [applyOperations, Prod.mk.injEq] at h
    obtain ⟨-, -, rfl⟩ := h
    simp
  | cons patchOp rest ih =>
    simp only [applyOperations] at h
    rcases hop : applyOperation lib resource patchOp w with ⟨err1, w2, evs1⟩
    have h1 := applyOperation_uses lib resource ref patchOp w err1 w2 evs1 hop
    rw [hop] at h
    cases err1 with
    | some e1 =>
      simp only [Prod.mk.injEq] at h
      obtain ⟨-, -, rfl⟩ := h
      exact h1
    | none =>
      rcases hrest : applyOperations lib resource rest w2 with ⟨err2, w3, evs2⟩
      have h2 := ih w2 err2 w3 evs2 hrest
      simp only [hrest, Prod.mk.injEq] at h
      obtain ⟨-, -, rfl⟩ := h
      intro ev hev
      rcases List.mem_append.mp hev with hev | hev
      · exact h1 ev hev
      · exact h2 ev hev

/-- A filter loop whose filters, run on `(resource, ref)`, leave an observation of the
world unchanged, leaves it unchanged. -/
theorem runFilters_preserves {W R V α : Type} (obs : W → α) (post : Bool) (resource ref : R)
    (fs : List (ByResource W R)) (index : Nat) (w : W)
    (hfs : ∀ f ∈ fs, ∀ w0, obs (f w0 resource ref).2 = obs w0) :
    obs (runFilters post resource ref index fs w : Option Error × W × List (Event R V)).2.1 =
      obs w := by
  induction fs generalizing index w with
  | nil => rfl
  | cons f rest ih =>
    have hf := hfs f (List.mem_cons_self f rest) w
    have hrest := fun i w0 => ih i w0 (fun g hg => hfs g (List.mem_cons_of_mem f hg))
    simp only [runFilters]
    rcases hfw : f w resource ref with ⟨ferr, w2⟩
    rw [hfw] at hf
    cases ferr with
    | some e => exact hf
    | none =>
      simp only []
      rw [hrest (index + 1) w2]
      exact hf

/-- One operation whose mutators, applied to the live resource, leave an observation
of the world unchanged, leaves it unchanged. -/
theorem applyOperation_preserves {W R A P V α : Type} (lib : Library W R A P V) (obs : W → α)
    (resource : R) (op : PatchOperation) (w : W)
    (hAdd : ∀ w0 path v, obs (lib.Add w0 resource path v).2 = obs w0)
    (hReplace : ∀ w0 path v, obs (lib.Replace w0 resource path v).2 = obs w0)
    (hDelete : ∀ w0 path, obs (lib.Delete w0 resource path).2 = obs w0) :
    obs (applyOperation lib resource op w).2.1 = obs w := by
  unfold applyOperation
  rcases hpv : ParseValue lib w resource op with ⟨res, pevs⟩
  split_ifs
  · cases res with
    | error e => rfl
    | ok v => exact hAdd w op.Path v
  · cases res with
    | error e => rfl
    | ok v => exact hReplace w op.Path v
  · exact hDelete w op.Path
  · rfl

/-- An operation loop whose mutators, applied to the live resource, leave an
observation of the world unchanged, leaves it unchanged. -/
theorem applyOperations_preserves {W R A P V α : Type} (lib : Library W R A P V)
    (obs : W → α) (resource : R) (ops : List PatchOperation) (w : W)
    (hAdd : ∀ w0 path v, obs (lib.Add w0 resource path v).2 = obs w0)
    (hReplace : ∀ w0 path v, obs (lib.Replace w0 resource path v).2 = obs w0)
    (hDelete : ∀ w0 path, obs (lib.Delete w0 resource path).2 = obs w0) :
    obs (applyOperations lib resource ops w).2.1 = obs w := by
  induction ops generalizing w with
  | nil => rfl
  | cons op rest ih =>
    have h1 := applyOperation_preserves lib obs resource op w hAdd hReplace hDelete
    simp only [applyOperations]
    rcases hop : applyOperation lib resource op w with ⟨err1, w2, evs1⟩
    rw [hop] at h1
    cases err1 with
    | some e => exact h1
    | none =>
      simp only []
      rw [ih w2]
      exact h1

/-- The precondition block evaluates the match criteria on the fetched resource only. -/
theorem checkPrecondition_uses {W R V : Type} (s : patchService W R)
    (req : PatchRequest W R) (w : W) (resource ref : R) (err : Option Error) (w1 : W)
    (evs : List (Event R V)) (h : checkPrecondition s req w resource = (err, w1, evs)) :
    ∀ ev ∈ evs, ev.uses resource ref ∧ ev.target = none := by
  unfold checkPrecondition at h
  split at h
  · split at h <;>
    · simp only [Prod.mk.injEq] at h
      obtain ⟨-, -, rfl⟩ := h
      intro ev hev
      simp only [List.mem_singleton] at hev
      subst hev
      simp [Event.uses, Event.target]
  · simp only [Prod.mk.injEq] at h
    obtain ⟨-, -, rfl⟩ := h
    intro ev hev
    cases hev

/-- The state of a resource of the instance is not touched by a write through another
pointer. -/
theorem toyDeref_set_ne (w : ToyWorld) (r other : Nat) (x : ToyResource) (h : other ≠ r) :
    toyDeref (w.set r x) other = toyDeref w other := by
  simp [toyDeref, List.getElem?_set_ne (Ne.symm h)]

/-- The mutators of the instance write only the resource they are applied to. -/
theorem toyLib_writesOnlyTarget : WritesOnlyTarget toyLib (resourceState toyLib toyDeref) := by
  have hm : ∀ (w : ToyWorld) (r other : Nat) (path text : String), other ≠ r →
      toyDeref (toyMutate w r path text).2 other = toyDeref w other := by
    intro w r other path text hne
    unfold toyMutate
    cases toyWrite (toyDeref w r) path text with
    | none => rfl
    | some x => exact toyDeref_set_ne w r other x hne
  intro w r other path hne
  refine ⟨fun v => ?_, fun v => ?_, ?_⟩
  · show (toyDeref (toyMutate w r path v).2 other, (toyDeref (toyMutate w r path v).2 other).version)
      = (toyDeref w other, (toyDeref w other).version)
    rw [hm w r other path v hne]
  · show (toyDeref (toyMutate w r path v).2 other, (toyDeref (toyMutate w r path v).2 other).version)
      = (toyDeref w other, (toyDeref w other).version)
    rw [hm w r other path v hne]
  · show (toyDeref (toyMutate w r path "").2 other,
      (toyDeref (toyMutate w r path "").2 other).version)
      = (toyDeref w other, (toyDeref w other).version)
    rw [hm w r other path "" hne]

/-- The pre-filter of the instance leaves the pre-image alone. -/
theorem toyNormalizeFilter_readOnly :
    PreImageReadOnly toyServiceNormalize.preFilters (resourceState toyLib toyDeref) := by
  intro f hf w r p hne
  have hf1 : f = toyNormalizeFilter := by
    simpa [toyServiceNormalize] using hf
  subst hf1
  show (toyDeref (w.set r _) p, (toyDeref (w.set r _) p).version)
    = (toyDeref w p, (toyDeref w p).version)
  rw [toyDeref_set_ne w r p _ hne]

/-- C13: once the fetched resource `resource` has been cloned into `ref`, every
filter of both phases is invoked on `(resource, ref)`, storage Replace on
`(ref, resource)`, the not-patched response carries `ref`, and every value parse and
mutator is applied to `resource` and none to the pre-image; so, the clone being
independent of the original and the pre-filters keeping the filter contract, the
content and the version token of the pre-image after the pre-filters and the mutation
phase, whether it succeeded or stopped at a failing operation, are those at the time
of the snapshot. -/
theorem Do_preimage_fixed {W R A P V C : Type} (lib : Library W R A P V)
    (s : patchService W R) (w w1 w2 w3 : W) (req : PatchRequest W R)
    (resource ref : R) (evs2 : List (Event R V)) (content : W → R → C)
    (hget : s.database.Get w req.ResourceID = (.ok resource, w1))
    (hpre : checkPrecondition s req w1 resource = (none, w2, evs2))
    (hclone : lib.Clone w2 resource = (ref, w3))
    (hfresh : ref ≠ resource)
    (hmutators : WritesOnlyTarget lib (resourceState lib content))
    (hfilters : PreImageReadOnly s.preFilters (resourceState lib content)) :
    (∀ ev ∈ (Do lib s w (some req)).trace,
      ev.uses resource ref ∧ (ev.target = none ∨ ev.target = some resource)) ∧
    (∀ ev ∈ (Do lib s w (some req)).trace, ev.target ≠ some ref) ∧
    (∀ resp, (Do lib s w (some req)).outcome = .returned (some resp, none) →
      resp.Patched = false → resp.Resource = ref) ∧
    (∀ (ops : List PatchOperation) (e4 e5 : Option Error) (w4 w5 : W)
      (evs4 evs5 : List (Event R V)),
      runFilters false resource ref 0 s.preFilters w3 = (e4, w4, evs4) →
      applyOperations lib resource ops w4 = (e5, w5, evs5) →
      content w5 ref = content w3 ref ∧
      lib.MetaVersionOrEmpty w5 ref = lib.MetaVersionOrEmpty w3 ref) := by
  have hQ2 := checkPrecondition_uses s req w1 resource ref none w2 evs2 hpre
  have key : (∀ ev ∈ (Do lib s w (some req)).trace,
      ev.uses resource ref ∧ (ev.target = none ∨ ev.target = some resource)) ∧
      (∀ resp, (Do lib s w (some req)).outcome = .returned (some resp, none) →
        resp.Patched = false → resp.Resource = ref) := by
    apply Do_cases lib s w (some req) (fun run =>
      (∀ ev ∈ run.trace,
        ev.uses resource ref ∧ (ev.target = none ∨ ev.target = some resource)) ∧
      (∀ resp : PatchResponse R, run.outcome = .returned (some resp, none) →
        resp.Patched = false → resp.Resource = ref))
    · rintro out (⟨e, rfl⟩ | ⟨m, rfl⟩)
      · exact ⟨fun ev hev => (by cases hev), fun resp h => (by simp at h)⟩
      · exact ⟨fun ev hev => (by cases hev), fun resp h => (by simp at h)⟩
    · intro r patch1 err w1' hreq _ _ _ hg
      cases hreq
      rw [hget] at hg
      simp at hg
    · intro r patch1 resource1 err w1' w2' evs2' hreq _ _ _ hg hc
      cases hreq
      rw [hget] at hg
      simp only [Prod.mk.injEq, Except.ok.injEq] at hg
      obtain ⟨rfl, rfl⟩ := hg
      rw [hpre] at hc
      simp at hc
    · intro r patch1 resource1 ref1 err w1' w2' w3' w4 evs2' evs4 hreq _ _ _ hg hc hcl hf
      cases hreq
      rw [hget] at hg
      simp only [Prod.mk.injEq, Except.ok.injEq] at hg
      obtain ⟨rfl, rfl⟩ := hg
      rw [hpre] at hc
      simp only [Prod.mk.injEq, true_and] at hc
      obtain ⟨rfl, rfl⟩ := hc
      rw [hclone] at hcl
      simp only [Prod.mk.injEq] at hcl
      obtain ⟨rfl, rfl⟩ := hcl
      have hQ4 := runFilters_uses false resource ref s.preFilters 0 w3 _ w4 evs4 hf
      refine ⟨?_, fun resp h => by simp at h⟩
      intro ev hev
      simp only [List.cons_append, List.mem_cons, List.mem_append] at hev
      rcases hev with rfl | hev | rfl | hev
      · simp [Event.uses, Event.target]
      · exact ⟨(hQ2 ev hev).1, Or.inl (hQ2 ev hev).2⟩
      · simp [Event.uses, Event.target]
      · exact ⟨(hQ4 ev hev).1, Or.inl (hQ4 ev hev).2⟩
    · intro r patch1 resource1 ref1 err w1' w2' w3' w4 w5 evs2' evs4 evs5 hreq _ _ _ hg hc hcl
        hf ho
      cases hreq
      rw [hget] at hg
      simp only [Prod.mk.injEq, Except.ok.injEq] at hg
      obtain ⟨rfl, rfl⟩ := hg
      rw [hpre] at hc
      simp only [Prod.mk.injEq, true_and] at hc
      obtain ⟨rfl, rfl⟩ := hc
      rw [hclone] at hcl
      simp only [Prod.mk.injEq] at hcl
      obtain ⟨rfl, rfl⟩ := hcl
      have hQ4 := runFilters_uses false resource ref s.preFilters 0 w3 _ w4 evs4 hf
      have hQ5 := applyOperations_uses lib resource ref patch1.Operations w4 _ w5 evs5 ho
      refine ⟨?_, fun resp h => by simp at h⟩
      intro ev hev
      simp only [List.cons_append, List.append_assoc, List.mem_cons, List.mem_append] at hev
      rcases hev with rfl | hev | rfl | hev | hev
      · simp [Event.uses, Event.target]
      · exact ⟨(hQ2 ev hev).1, Or.inl (hQ2 ev hev).2⟩
      · simp [Event.uses, Event.target]
      · exact ⟨(hQ4 ev hev).1, Or.inl (hQ4 ev hev).2⟩
      · exact hQ5 ev hev
    · intro r patch1 resource1 ref1 w1' w2' w3' w4 w5 evs2' evs4 evs5 hreq _ _ _ hg hc hcl
        hf ho
      cases hreq
      rw [hget] at hg
      simp only [Prod.mk.injEq, Except.ok.injEq] at hg
      obtain ⟨rfl, rfl⟩ := hg
      rw [hpre] at hc
      simp only [Prod.mk.injEq, true_and] at hc
      obtain ⟨rfl, rfl⟩ := hc
      rw [hclone] at hcl
      simp only [Prod.mk.injEq] at hcl
      obtain ⟨rfl, rfl⟩ := hcl
      have hQ4 := runFilters_uses false resource ref s.preFilters 0 w3 _ w4 evs4 hf
      have hQ5 := applyOperations_uses lib resource ref patch1.Operations w4 _ w5 evs5 ho
      have hbase : ∀ ev ∈ (Event.Get req.ResourceID none :: evs2 ++
          Event.Clone resource ref :: evs4 ++ evs5 : List (Event R V)),
          ev.uses resource ref ∧ (ev.target = none ∨ ev.target = some resource) := by
        intro ev hev
        simp only [List.cons_append, List.append_assoc, List.mem_cons, List.mem_append] at hev
        rcases hev with rfl | hev | rfl | hev | hev
        · simp [Event.uses, Event.target]
        · exact ⟨(hQ2 ev hev).1, Or.inl (hQ2 ev hev).2⟩
        · simp [Event.uses, Event.target]
        · exact ⟨(hQ4 ev hev).1, Or.inl (hQ4 ev hev).2⟩
        · exact hQ5 ev hev
      apply postFiltersAndCommit_cases lib s resource ref w5 _ (fun run =>
        (∀ ev ∈ run.trace,
          ev.uses resource ref ∧ (ev.target = none ∨ ev.target = some resource)) ∧
        (∀ resp : PatchResponse R, run.outcome = .returned (some resp, none) →
          resp.Patched = false → resp.Resource = ref))
      · intro err w6 evs6 hpf
        have hQ6 := runFilters_uses true resource ref s.postFilters 0 w5 _ w6 evs6 hpf
        refine ⟨?_, fun resp h => by simp at h⟩
        intro ev hev
        rcases List.mem_append.mp hev with hev | hev
        · exact hbase ev hev
        · exact ⟨(hQ6 ev hev).1, Or.inl (hQ6 ev hev).2⟩
      · intro w6 evs6 hpf _
        have hQ6 := runFilters_uses true resource ref s.postFilters 0 w5 _ w6 evs6 hpf
        constructor
        · intro ev hev
          rcases List.mem_append.mp hev with hev | hev
          · exact hbase ev hev
          · exact ⟨(hQ6 ev hev).1, Or.inl (hQ6 ev hev).2⟩
        · intro resp h _
          simp only [Completion.returned.injEq, Prod.mk.injEq, Option.some.injEq,
            and_true] at h
          subst h
          rfl
      · intro w6 evs6 result w7 hpf _ _
        have hQ6 := runFilters_uses true resource ref s.postFilters 0 w5 _ w6 evs6 hpf
        constructor
        · intro ev hev
          rcases List.mem_append.mp hev with hev | hev
          · rcases List.mem_append.mp hev with hev | hev
            · exact hbase ev hev
            · exact ⟨(hQ6 ev hev).1, Or.inl (hQ6 ev hev).2⟩
          · simp only [List.mem_singleton] at hev
            subst hev
            simp [Event.uses, Event.target]
        · intro resp h hp
          cases result with
          | some e => simp at h
          | none =>
            simp only [Completion.returned.injEq, Prod.mk.injEq, Option.some.injEq,
              and_true] at h
            subst h
            simp at hp
  refine ⟨key.1, ?_, key.2, ?_⟩
  · intro ev hev htarget
    rcases (key.1 ev hev).2 with h | h
    · rw [h] at htarget
      cases htarget
    · rw [h] at htarget
      simp only [Option.some.injEq] at htarget
      exact hfresh htarget.symm
  · intro ops e4 e5 w4 w5 evs4 evs5 hf ho
    have h4 := runFilters_preserves (V := V) (fun w0 => resourceState lib content w0 ref)
      false resource ref s.preFilters 0 w3
      (fun f hf0 w0 => hfilters f hf0 w0 resource ref hfresh)
    have h5 := applyOperations_preserves lib (fun w0 => resourceState lib content w0 ref)
      resource ops w4
      (fun w0 path v => (hmutators w0 resource ref path hfresh).1 v)
      (fun w0 path v => (hmutators w0 resource ref path hfresh).2.1 v)
      (fun w0 path => (hmutators w0 resource ref path hfresh).2.2)
    rw [hf] at h4
    rw [ho] at h5
    have h : resourceState lib content w5 ref = resourceState lib content w3 ref :=
      h5.trans h4
    simp only [resourceState, Prod.mk.injEq] at h
    exact h

/-- Witness of C13 on the instance with a pre-filter that rewrites the time zone of
the live resource: after that filter and the three operations of the test file the
live resource has changed and the pre-image has not. -/
theorem Do_preimage_fixed_witness :
    toyDeref [toyUser, ⟨"foobar", "", "work", "v1"⟩, toyUser] 1 ≠
      toyDeref [toyUser, toyUser, toyUser] 1 ∧
    toyDeref [toyUser, ⟨"foobar", "", "work", "v1"⟩, toyUser] 2 =
      toyDeref [toyUser, toyUser, toyUser] 2 ∧
    toyLib.MetaVersionOrEmpty [toyUser, ⟨"foobar", "", "work", "v1"⟩, toyUser] 2 =
      toyLib.MetaVersionOrEmpty [toyUser, toyUser, toyUser] 2 :=
  have h := (Do_preimage_fixed toyLib toyServiceNormalize toyWorld [toyUser, toyUser]
    [toyUser, toyUser] [toyUser, toyUser, toyUser] (toyRequest [1]) 1 2 [] toyDeref
    (by rfl) (by rfl) (by rfl) (by decide) toyLib_writesOnlyTarget
    toyNormalizeFilter_readOnly).2.2.2
    [⟨"add", "userName", [102, 111, 111, 98, 97, 114]⟩,
      ⟨"replace", "emails[primary eq true].type", [119, 111, 114, 107]⟩,
      ⟨"remove", "timezone", []⟩]
    none none
    [toyUser, ⟨"foo", "UTC", "home", "v1"⟩, toyUser]
    [toyUser, ⟨"foobar", "", "work", "v1"⟩, toyUser]
    [.FilterRef false 0 1 2 none]
    [.DeserializeProperty [102, 111, 111, 98, 97, 114] true none,
      .ParseValue ⟨"add", "userName", [102, 111, 111, 98, 97, 114]⟩ 1 none,
      .Add 1 "userName" "foobar" none,
      .DeserializeProperty [119, 111, 114, 107] false none,
      .ParseValue ⟨"replace", "emails[primary eq true].type", [119, 111, 114, 107]⟩ 1 none,
      .Replace 1 "emails[primary eq true].type" "work" none,
      .Delete 1 "timezone" none]
    (by rfl) (by rfl)
  ⟨by decide, h.1, h.2⟩

end PatchService
